import Mathlib

/-!
Product chaincode (`chaincode/go/reference/chaincode_example02.go`).

A shallow embedding of the chaincode: `Init`, `add`, `delete`, `query`, `Invoke`
and `getCreator`, written as state-passing functions over an explicit world.

* Go `string` and `[]byte` values are byte sequences (`List UInt8`); a `nil`
  byte slice returned by the accessor is `none`.
* The ledger is a map from keys to values; every accessor call is appended to a
  trace, and its outcome (success or an error message) is read from the
  environment, so a failing accessor is part of the model.
* The libraries the program calls (`encoding/json`, `encoding/pem`,
  `crypto/x509`, `time`) are fields of the environment `Env`.
* A run-time panic of the Go program is a value of `Panic`.
* `logger.Debug` and `fmt.Println` write to the log and to standard output only
  and are left out.
-/

namespace Chaincode

/-! ## Strings and bytes -/

/-- A Go `[]byte`. -/
abbrev Bytes := List UInt8

/-- A Go `string`: an arbitrary sequence of bytes. -/
abbrev GoString := List UInt8

/-- UTF-8 encoding of a code point. -/
def utf8Bytes (c : Nat) : List UInt8 :=
  if c < 0x80 then [UInt8.ofNat c]
  else if c < 0x800 then [UInt8.ofNat (0xC0 + c / 64), UInt8.ofNat (0x80 + c % 64)]
  else if c < 0x10000 then
    [UInt8.ofNat (0xE0 + c / 4096), UInt8.ofNat (0x80 + c / 64 % 64),
     UInt8.ofNat (0x80 + c % 64)]
  else
    [UInt8.ofNat (0xF0 + c / 262144), UInt8.ofNat (0x80 + c / 4096 % 64),
     UInt8.ofNat (0x80 + c / 64 % 64), UInt8.ofNat (0x80 + c % 64)]

/-- A string literal of the source as a Go string (its UTF-8 bytes). -/
def lit (s : String) : GoString := s.data.flatMap (fun c => utf8Bytes c.toNat)

/-- First position at which `sep` occurs in `s`, counting from `i`. -/
def indexFrom (sep : GoString) : GoString → Nat → Option Nat
  | [], i => if sep = [] then some i else none
  | c :: cs, i => if sep.isPrefixOf (c :: cs) then some i else indexFrom sep cs (i + 1)

/-- Last position at which `sep` occurs in `s`, counting from `i`; `acc` is the
last position found so far. -/
def lastIndexFrom (sep : GoString) : GoString → Nat → Option Nat → Option Nat
  | [], i, acc => if sep = [] then some i else acc
  | c :: cs, i, acc =>
    lastIndexFrom sep cs (i + 1) (if sep.isPrefixOf (c :: cs) then some i else acc)

/-- Go `strings.Index`: the index of the first instance of `sep` in `s`, or `-1`. -/
def stringsIndex (s sep : GoString) : Int :=
  match indexFrom sep s 0 with
  | some i => (i : Int)
  | none => -1

/-- Go `strings.LastIndex`: the index of the last instance of `sep` in `s`, or `-1`. -/
def stringsLastIndex (s sep : GoString) : Int :=
  match lastIndexFrom sep s 0 none with
  | some i => (i : Int)
  | none => -1

/-- Go `strings.Split` for a non-empty separator; `fuel` bounds the number of cuts. -/
def splitFuel (sep : GoString) : Nat → GoString → List GoString
  | 0, s => [s]
  | fuel + 1, s =>
    match indexFrom sep s 0 with
    | none => [s]
    | some m => s.take m :: splitFuel sep fuel (s.drop (m + sep.length))

/-- Go `strings.Split(s, sep)`: every cut removes at least one byte, so
`s.length` cuts are enough. -/
def stringsSplit (s sep : GoString) : List GoString := splitFuel sep s.length s

/-! ## Data model -/

/-- A Go `time.Time`: the wall-clock instant, in nanoseconds since the epoch. -/
abbrev Time := Int

/-- The persisted record (`type Product struct`). -/
structure Product where
  ObjectType : GoString
  Name : GoString
  Desc : GoString
  State : GoString
  Org : GoString
  DateCreated : Time
  DateUpdated : Time
  deriving DecidableEq

/-- The response record `pb.Response`; a `nil` payload is the empty payload. -/
structure Response where
  Status : Nat
  Message : GoString
  Payload : Bytes
  deriving DecidableEq

/-- Modelled from the spec: `shim.Success` of the Fabric shim, which is not part
of the repository; the success response has the 200 status and carries the
payload. -/
def shim.Success (payload : Bytes) : Response := ⟨200, [], payload⟩

/-- Modelled from the spec: `shim.Error` of the Fabric shim, which is not part
of the repository; it is the internal-error response (status 500) carrying the
message. -/
def shim.Error (msg : GoString) : Response := ⟨500, msg, []⟩

/-- The part of a `pem.Block` the program reads. -/
structure PemBlock where
  Bytes : Bytes
  deriving DecidableEq

/-- The part of an `x509.Certificate` the program reads:
`cert.Issuer.Organization` and `cert.Subject.CommonName`. -/
structure Certificate where
  IssuerOrganization : List GoString
  SubjectCommonName : GoString
  deriving DecidableEq

/-- A run-time panic of the Go program. -/
inductive Panic where
  | sliceBounds
  | nilDereference
  | indexOutOfRange
  deriving DecidableEq

deriving instance DecidableEq for Except

/-! ## The world outside the chaincode -/

/-- The libraries and the surroundings of one run.
* `jsonMarshal p` is the first result of `json.Marshal(p)`;
* `pemDecode d` is the first result of `pem.Decode(d)`, `none` for a nil block;
* `parseCertificate b` is the first result of `x509.ParseCertificate(b)`,
  `none` for a nil certificate;
* `now n` is what the `n`-th reading of `time.Now()` returns;
* `fault n` is the outcome of the `n`-th accessor call: `none` when it succeeds,
  `some m` when it fails with message `m`. -/
structure Env where
  jsonMarshal : Product → Bytes
  pemDecode : Bytes → Option PemBlock
  parseCertificate : Bytes → Option Certificate
  now : Nat → Time
  fault : Nat → Option GoString

/-- One call of the state accessor. -/
inductive Call where
  | get (key : GoString)
  | put (key : GoString) (value : Bytes)
  | del (key : GoString)
  deriving DecidableEq

/-- The ledger: the value held by each key, `none` when the key holds none. -/
abbrev Ledger := GoString → Option Bytes

/-- The state a run threads through: the ledger, the accessor calls made so
far, and the number of clock readings taken so far. -/
structure World where
  ledger : Ledger
  calls : List Call
  ticks : Nat

/-- The outcome the accessor gives to the next call. -/
def nextFault (E : Env) (w : World) : Option GoString := E.fault w.calls.length

/-- Accessor read `stub.GetState(key)`. -/
def GetState (E : Env) (key : GoString) (w : World) :
    Except GoString (Option Bytes) × World :=
  let w1 : World := { w with calls := w.calls ++ [Call.get key] }
  match nextFault E w with
  | some err => (.error err, w1)
  | none => (.ok (w.ledger key), w1)

/-- Accessor write `stub.PutState(key, value)`; the result is the error, if any. -/
def PutState (E : Env) (key : GoString) (value : Bytes) (w : World) :
    Option GoString × World :=
  match nextFault E w with
  | some err => (some err, { w with calls := w.calls ++ [Call.put key value] })
  | none =>
    (none, { w with
      ledger := fun k => if k = key then some value else w.ledger k
      calls := w.calls ++ [Call.put key value] })

/-- Accessor removal `stub.DelState(key)`; the result is the error, if any. -/
def DelState (E : Env) (key : GoString) (w : World) : Option GoString × World :=
  match nextFault E w with
  | some err => (some err, { w with calls := w.calls ++ [Call.del key] })
  | none =>
    (none, { w with
      ledger := fun k => if k = key then none else w.ledger k
      calls := w.calls ++ [Call.del key] })

/-- One reading of the clock, `time.Now()`. -/
def timeNow (E : Env) (w : World) : Time × World :=
  (E.now w.ticks, { w with ticks := w.ticks + 1 })

/-! ## The chaincode -/

/-- The method `add`: validates the four arguments, checks that the key is free,
builds the product and writes it. -/
def add (E : Env) (args : List GoString) (w : World) : Response × World :=
  match args with
  | [a0, a1, a2, a3] =>
    if a0.length ≤ 0 then
      (shim.Error (lit "1st argument must be a non-empty string"), w)
    else if a1.length ≤ 0 then
      (shim.Error (lit "2nd argument must be a non-empty string"), w)
    else if a2.length ≤ 0 then
      (shim.Error (lit "3rd argument must be a non-empty string"), w)
    else if a3.length ≤ 0 then
      (shim.Error (lit "4th argument must be a non-empty string"), w)
    else
      let productName := a0
      let productDesc := a1
      let productState := a2
      let productOrg := a3
      match GetState E productName w with
      | (.error err, w1) => (shim.Error (lit "Failed to get product: " ++ err), w1)
      | (.ok (some _), w1) =>
        (shim.Error (lit "This product already exists: " ++ productName), w1)
      | (.ok none, w1) =>
        let (DateCreated, w2) := timeNow E w1
        let (DateUpdated, w3) := timeNow E w2
        let objectType := lit "product"
        let product : Product :=
          ⟨objectType, productName, productDesc, productState, productOrg,
            DateCreated, DateUpdated⟩
        let productJSONasBytes := E.jsonMarshal product
        match PutState E productName productJSONasBytes w3 with
        | (some err, w4) => (shim.Error err, w4)
        | (none, w4) => (shim.Success [], w4)
  | _ => (shim.Error (lit "Incorrect number of arguments. Expecting 4"), w)

/-- The method `delete`: removes the key. -/
def delete (E : Env) (args : List GoString) (w : World) : Response × World :=
  match args with
  | [a0] =>
    let productName := a0
    match DelState E productName w with
    | (some err, w1) => (shim.Error err, w1)
    | (none, w1) => (shim.Success [], w1)
  | _ => (⟨403, lit "Incorrect number of arguments", []⟩, w)

/-- The method `query`: reads the key. The source assigns `args[0]` to
`productName` without declaring it in this function; it is read as the local
variable that `delete` declares. -/
def query (E : Env) (args : List GoString) (w : World) : Response × World :=
  match args with
  | [a0] =>
    let productName := a0
    match GetState E productName w with
    | (.error err, w1) => (shim.Error err, w1)
    | (.ok none, w1) => (⟨404, lit "Entity not found", []⟩, w1)
    | (.ok (some productBytes), w1) => (shim.Success productBytes, w1)
  | _ => (⟨403, lit "Incorrect number of arguments", []⟩, w)

/-- The slice expression `s[lo:hi]` on bytes: it panics unless
`0 ≤ lo ≤ hi ≤ len(s)`. (Go lets `hi` reach the capacity of `s`; in `getCreator`
`hi` exceeds the length only when `lo` is `-1`, so the length decides there.) -/
def sliceBytes (s : Bytes) (lo hi : Int) : Except Panic Bytes :=
  if 0 ≤ lo ∧ lo ≤ hi ∧ hi ≤ (s.length : Int) then
    .ok ((s.drop lo.toNat).take (hi.toNat - lo.toNat))
  else .error Panic.sliceBounds

/-- The PEM delimiter marker `"-----"`. -/
def marker : GoString := lit "-----"

/-- The function `getCreator`: caller name and organization from the raw
credential. The errors of `pem.Decode` and `x509.ParseCertificate` are
discarded by the source, and their nil results are dereferenced. -/
def getCreator (E : Env) (certificate : Bytes) : Except Panic (GoString × GoString) :=
  match sliceBytes certificate (stringsIndex certificate marker)
      (stringsLastIndex certificate marker + 5) with
  | .error p => .error p
  | .ok data =>
    match E.pemDecode data with
    | none => .error Panic.nilDereference
    | some block =>
      match E.parseCertificate block.Bytes with
      | none => .error Panic.nilDereference
      | some cert =>
        match cert.IssuerOrganization with
        | [] => .error Panic.indexOutOfRange
        | organization :: _ =>
          let commonName := cert.SubjectCommonName
          match stringsSplit organization (lit ".") with
          | [] => .error Panic.indexOutOfRange
          | organizationShort :: _ => .ok (commonName, organizationShort)

/-- What the stub exposes of one request: the result of `stub.GetCreator()` and
of `stub.GetFunctionAndParameters()`. -/
structure Request where
  creator : Except GoString Bytes
  function : GoString
  args : List GoString

/-- The method `Invoke`: resolves the caller, then dispatches on the function name. -/
def Invoke (E : Env) (req : Request) (w : World) : Except Panic Response × World :=
  match req.creator with
  | .error err => (.ok (shim.Error err), w)
  | .ok creatorBytes =>
    match getCreator E creatorBytes with
    | .error p => (.error p, w)
    | .ok _ =>
      if req.function = lit "add" then
        let r := add E req.args w
        (.ok r.1, r.2)
      else if req.function = lit "delete" then
        let r := delete E req.args w
        (.ok r.1, r.2)
      else if req.function = lit "query" then
        let r := query E req.args w
        (.ok r.1, r.2)
      else (.ok ⟨403, lit "Invalid invoke function name.", []⟩, w)

/-- The value of a run of decimal digits read after `n`, `none` when a byte is
not a digit (the loop of `strconv.Atoi`). -/
def parseDigits : GoString → Nat → Option Nat
  | [], n => some n
  | ch :: rest, n =>
    if 48 ≤ ch.toNat ∧ ch.toNat ≤ 57 then parseDigits rest (n * 10 + (ch.toNat - 48))
    else none

/-- Go `strconv.Atoi` with a 64-bit `int`: an optional sign, then at least one
decimal digit, the value within the range of `int`; `none` when it returns an
error (of syntax or of range). -/
def Atoi (s : GoString) : Option Int :=
  let neg := decide (s.head? = some 0x2D)
  let body := match s with
    | 0x2B :: rest => rest
    | 0x2D :: rest => rest
    | _ => s
  if body = [] then none
  else
    match parseDigits body 0 with
    | none => none
    | some n =>
      if neg then (if n ≤ 2 ^ 63 then some (-(n : Int)) else none)
      else if n < 2 ^ 63 then some (n : Int)
      else none

/-- The decimal digits of `n` put before `acc`; `fuel` bounds their number. -/
def decimalFuel : Nat → Nat → Bytes → Bytes
  | 0, _, acc => acc
  | fuel + 1, n, acc =>
    if n < 10 then UInt8.ofNat (48 + n) :: acc
    else decimalFuel fuel (n / 10) (UInt8.ofNat (48 + n % 10) :: acc)

/-- Go `strconv.Itoa` on a 64-bit `int`, which has at most 19 digits. -/
def Itoa (i : Int) : GoString :=
  if i < 0 then 0x2D :: decimalFuel 20 i.natAbs [] else decimalFuel 20 i.natAbs []

/-- The method `Init`: parses the two holdings and writes them under the two
entity names. The arguments are those of `stub.GetFunctionAndParameters()`. -/
def Init (E : Env) (req : Request) (w : World) : Response × World :=
  match req.args with
  | [a0, a1, a2, a3] =>
    let a := a0
    match Atoi a1 with
    | none => (⟨403, lit "Expecting integer value for asset holding", []⟩, w)
    | some aVal =>
      let b := a2
      match Atoi a3 with
      | none => (⟨403, lit "Expecting integer value for asset holding", []⟩, w)
      | some bVal =>
        match PutState E a (Itoa aVal) w with
        | (some err, w1) => (shim.Error err, w1)
        | (none, w1) =>
          match PutState E b (Itoa bVal) w1 with
          | (some err, w2) => (shim.Error err, w2)
          | (none, w2) => (shim.Success [], w2)
  | _ => (⟨403, lit "Incorrect number of arguments. Expecting 4", []⟩, w)

/-! ## UTF-8 -/

/-- Whether `b` is a UTF-8 continuation byte. -/
def isCont (b : UInt8) : Bool := decide (0x80 ≤ b.toNat) && decide (b.toNat ≤ 0xBF)

/-- Go `utf8.DecodeRune` on a non-empty input: the code point and the size of
the encoding `s` starts with, or `none` where Go returns `(RuneError, 1)`. -/
def decodeRune : Bytes → Option (Nat × Nat)
  | [] => none
  | b0 :: rest =>
    let x := b0.toNat
    if x < 0x80 then some (x, 1)
    else if x < 0xC2 then none
    else if x < 0xE0 then
      match rest with
      | b1 :: _ =>
        if isCont b1 then some ((x - 0xC0) * 64 + (b1.toNat - 0x80), 2) else none
      | _ => none
    else if x < 0xF0 then
      match rest with
      | b1 :: b2 :: _ =>
        let lo := if x = 0xE0 then 0xA0 else 0x80
        let hi := if x = 0xED then 0x9F else 0xBF
        if lo ≤ b1.toNat ∧ b1.toNat ≤ hi ∧ isCont b2 then
          some ((x - 0xE0) * 4096 + (b1.toNat - 0x80) * 64 + (b2.toNat - 0x80), 3)
        else none
      | _ => none
    else if x < 0xF5 then
      match rest with
      | b1 :: b2 :: b3 :: _ =>
        let lo := if x = 0xF0 then 0x90 else 0x80
        let hi := if x = 0xF4 then 0x8F else 0xBF
        if lo ≤ b1.toNat ∧ b1.toNat ≤ hi ∧ isCont b2 ∧ isCont b3 then
          some ((x - 0xF0) * 262144 + (b1.toNat - 0x80) * 4096 + (b2.toNat - 0x80) * 64
            + (b3.toNat - 0x80), 4)
        else none
      | _ => none
    else none

/-- The encoding of U+FFFD, the Unicode replacement character. -/
def replacement : Bytes := [0xEF, 0xBF, 0xBD]

/-- Coercion to valid UTF-8, `fuel` bounding the number of steps. -/
def coerceFuel : Nat → Bytes → Bytes
  | 0, _ => []
  | _ + 1, [] => []
  | fuel + 1, b :: rest =>
    match decodeRune (b :: rest) with
    | none => replacement ++ coerceFuel fuel rest
    | some (_, size) => (b :: rest).take size ++ coerceFuel fuel ((b :: rest).drop size)

/-- What `encoding/json` makes of a string value: "coerced to valid UTF-8,
replacing invalid bytes with the Unicode replacement rune". -/
def toValidUTF8 (s : GoString) : GoString := coerceFuel s.length s

/-- Go `utf8.Valid`, `fuel` bounding the number of steps. -/
def validFuel : Nat → Bytes → Bool
  | 0, s => s.isEmpty
  | _ + 1, [] => true
  | fuel + 1, b :: rest =>
    match decodeRune (b :: rest) with
    | none => false
    | some (_, size) => validFuel fuel ((b :: rest).drop size)

/-- Go `utf8.ValidString`. -/
def utf8Valid (s : GoString) : Bool := validFuel s.length s


/-! ## Reference model of `encoding/json` for `Product` -/

/-- A lower-case hexadecimal digit. -/
def hexDigit (n : Nat) : UInt8 := if n < 10 then UInt8.ofNat (48 + n) else UInt8.ofNat (87 + n)

/-- The ASCII bytes `encoding/json` copies unescaped (`htmlSafeSet`). -/
def htmlSafe (x : Nat) : Bool :=
  decide (0x20 ≤ x) && decide (x ≠ 0x22) && decide (x ≠ 0x26) && decide (x ≠ 0x3C)
    && decide (x ≠ 0x3E) && decide (x ≠ 0x5C)

/-- The body of a JSON string as `encoding/json` writes it (HTML escaping on):
invalid UTF-8 becomes the escape of U+FFFD. -/
def encodeStringFuel : Nat → GoString → Bytes
  | 0, _ => []
  | _ + 1, [] => []
  | fuel + 1, b :: rest =>
    let x := b.toNat
    if x < 0x80 then
      (if htmlSafe x then [b]
       else if x = 0x5C ∨ x = 0x22 then [0x5C, b]
       else if x = 0x0A then lit "\\n"
       else if x = 0x0D then lit "\\r"
       else if x = 0x09 then lit "\\t"
       else lit "\\u00" ++ [hexDigit (x / 16), hexDigit (x % 16)])
        ++ encodeStringFuel fuel rest
    else
      match decodeRune (b :: rest) with
      | none => lit "\\ufffd" ++ encodeStringFuel fuel rest
      | some (c, size) =>
        (if c = 0x2028 then lit "\\u2028"
         else if c = 0x2029 then lit "\\u2029"
         else (b :: rest).take size)
          ++ encodeStringFuel fuel ((b :: rest).drop size)

/-- A JSON string literal. -/
def jsonString (s : GoString) : Bytes := [0x22] ++ encodeStringFuel s.length s ++ [0x22]

/-- The decimal digits of `n`, zero-padded to `width` digits. -/
def padded : Nat → Nat → Bytes
  | 0, _ => []
  | width + 1, n => padded width (n / 10) ++ [UInt8.ofNat (48 + n % 10)]

/-- A broken-down UTC time. -/
structure Civil where
  year : Int
  month : Nat
  day : Nat
  hour : Nat
  minute : Nat
  second : Nat
  nano : Nat
  deriving DecidableEq

/-- The UTC calendar reading of an instant. -/
def civilOfTime (t : Time) : Civil :=
  let secs := t / 1000000000
  let nano := (t % 1000000000).toNat
  let days := secs / 86400
  let sod := (secs % 86400).toNat
  let z := days + 719468
  let era := z / 146097
  let doe := (z % 146097).toNat
  let yoe := (doe - doe / 1460 + doe / 36524 - doe / 146096) / 365
  let doy := doe - (365 * yoe + yoe / 4 - yoe / 100)
  let mp := (5 * doy + 2) / 153
  let d := doy - (153 * mp + 2) / 5 + 1
  let m := if mp < 10 then mp + 3 else mp - 9
  let y := (yoe : Int) + era * 400 + (if m ≤ 2 then 1 else 0)
  ⟨y, m, d, sod / 3600, sod / 60 % 60, sod % 60, nano⟩

/-- The instant of a UTC calendar reading. -/
def timeOfCivil (c : Civil) : Time :=
  let y := c.year - (if c.month ≤ 2 then 1 else 0)
  let era := y / 400
  let yoe := (y % 400).toNat
  let mp := if c.month > 2 then c.month - 3 else c.month + 9
  let doy := (153 * mp + 2) / 5 + c.day - 1
  let doe := yoe * 365 + yoe / 4 - yoe / 100 + doy
  let days := era * 146097 + (doe : Int) - 719468
  ((days * 86400 + (c.hour * 3600 + c.minute * 60 + c.second : Nat)) * 1000000000 + (c.nano : Nat))

/-- Drops the trailing `'0'` digits. -/
def stripZeros (ds : Bytes) : Bytes := (ds.reverse.dropWhile (fun b => b == 48)).reverse

/-- The text of a time in the layout `RFC3339Nano`, in UTC. -/
def rfc3339Nano (t : Time) : Bytes :=
  let c := civilOfTime t
  padded 4 c.year.toNat ++ lit "-" ++ padded 2 c.month ++ lit "-" ++ padded 2 c.day ++ lit "T"
    ++ padded 2 c.hour ++ lit ":" ++ padded 2 c.minute ++ lit ":" ++ padded 2 c.second
    ++ (if c.nano = 0 then [] else lit "." ++ stripZeros (padded 9 c.nano)) ++ lit "Z"

/-- Reference model of `json.Marshal(product)` (first result): the members in
declaration order under their tags, strings coerced to valid UTF-8, times in
`RFC3339Nano`. A time whose year is outside `[0, 9999]` makes `json.Marshal`
fail, and its first result is then nil. -/
def goJsonMarshal (p : Product) : Bytes :=
  let okYear := fun (t : Time) => decide (0 ≤ (civilOfTime t).year ∧ (civilOfTime t).year ≤ 9999)
  if okYear p.DateCreated && okYear p.DateUpdated then
    lit "\x7b\"productObjectType\":" ++ jsonString p.ObjectType
      ++ lit ",\"productName\":" ++ jsonString p.Name
      ++ lit ",\"productDesc\":" ++ jsonString p.Desc
      ++ lit ",\"productState\":" ++ jsonString p.State
      ++ lit ",\"productOrg\":" ++ jsonString p.Org
      ++ lit ",\"DateCreated\":\"" ++ rfc3339Nano p.DateCreated
      ++ lit "\",\"DateUpdated\":\"" ++ rfc3339Nano p.DateUpdated ++ lit "\"\x7d"
  else []

/-- Value of a hexadecimal digit. -/
def hexValue (b : UInt8) : Option Nat :=
  let x := b.toNat
  if 48 ≤ x ∧ x ≤ 57 then some (x - 48)
  else if 97 ≤ x ∧ x ≤ 102 then some (x - 87)
  else if 65 ≤ x ∧ x ≤ 70 then some (x - 55)
  else none

/-- Reads the body of a JSON string up to its closing quote: the string it
denotes and the input left. -/
def readString : Nat → Bytes → Option (GoString × Bytes)
  | 0, _ => none
  | _ + 1, [] => none
  | fuel + 1, b :: rest =>
    if b = 0x22 then some ([], rest)
    else if b = 0x5C then
      match rest with
      | 0x75 :: h3 :: h2 :: h1 :: h0 :: rest1 =>
        match hexValue h3, hexValue h2, hexValue h1, hexValue h0 with
        | some d3, some d2, some d1, some d0 =>
          (readString fuel rest1).map
            (fun r => (utf8Bytes (d3 * 4096 + d2 * 256 + d1 * 16 + d0) ++ r.1, r.2))
        | _, _, _, _ => none
      | e :: rest1 =>
        let c : Option UInt8 :=
          if e = 0x22 ∨ e = 0x5C ∨ e = 0x2F then some e
          else if e = 0x62 then some 0x08
          else if e = 0x66 then some 0x0C
          else if e = 0x6E then some 0x0A
          else if e = 0x72 then some 0x0D
          else if e = 0x74 then some 0x09
          else none
        match c with
        | some c => (readString fuel rest1).map (fun r => (c :: r.1, r.2))
        | none => none
      | [] => none
    else (readString fuel rest).map (fun r => (b :: r.1, r.2))

/-- Reads the members `"key":"value"` of a flat JSON object up to its closing brace. -/
def readMembers : Nat → Bytes → Option (List (GoString × GoString))
  | 0, _ => none
  | fuel + 1, s =>
    match s with
    | 0x22 :: s1 =>
      match readString s1.length s1 with
      | some (key, 0x3A :: 0x22 :: s2) =>
        match readString s2.length s2 with
        | some (value, 0x2C :: s3) => (readMembers fuel s3).map (fun ms => (key, value) :: ms)
        | some (value, [0x7D]) => some [(key, value)]
        | _ => none
      | _ => none
    | _ => none

/-- Value of a run of decimal digits. -/
def readNat (ds : Bytes) : Option Nat :=
  ds.foldl (fun acc b =>
    match acc with
    | none => none
    | some n => if 48 ≤ b.toNat ∧ b.toNat ≤ 57 then some (n * 10 + (b.toNat - 48)) else none)
    (some 0)

/-- Reads a time written in `RFC3339Nano` in UTC. -/
def readTime (s : Bytes) : Option Time :=
  match s with
  | y3 :: y2 :: y1 :: y0 :: 0x2D :: m1 :: m0 :: 0x2D :: d1 :: d0 :: 0x54 ::
      h1 :: h0 :: 0x3A :: n1 :: n0 :: 0x3A :: s1 :: s0 :: tail =>
    match readNat [y3, y2, y1, y0], readNat [m1, m0], readNat [d1, d0], readNat [h1, h0],
      readNat [n1, n0], readNat [s1, s0] with
    | some y, some m, some d, some h, some n, some sec =>
      match tail with
      | [0x5A] => some (timeOfCivil ⟨y, m, d, h, n, sec, 0⟩)
      | 0x2E :: frac =>
        match frac.reverse with
        | 0x5A :: digitsRev =>
          let ds := digitsRev.reverse
          if ds.length = 0 ∨ 9 < ds.length then none
          else (readNat (ds ++ List.replicate (9 - ds.length) 48)).map
            (fun nano => timeOfCivil ⟨y, m, d, h, n, sec, nano⟩)
        | _ => none
      | _ => none
    | _, _, _, _, _, _ => none
  | _ => none

/-- Reference model of `json.Unmarshal` into a `Product`, for the documents
`goJsonMarshal` writes: a flat object of string members. A member that is
absent leaves the empty string; both times are required. -/
def goJsonUnmarshal (s : Bytes) : Option Product :=
  match s with
  | 0x7B :: s1 =>
    match readMembers s1.length s1 with
    | some ms =>
      let field := fun (k : String) => ((ms.lookup (lit k)).getD [])
      match (ms.lookup (lit "DateCreated")).bind readTime,
        (ms.lookup (lit "DateUpdated")).bind readTime with
      | some c, some u =>
        some ⟨field "productObjectType", field "productName", field "productDesc",
          field "productState", field "productOrg", c, u⟩
      | _, _ => none
    | none => none
  | _ => none


/-- The product with its strings as `encoding/json` writes them. -/
def Product.coerced (p : Product) : Product :=
  { p with
    ObjectType := toValidUTF8 p.ObjectType
    Name := toValidUTF8 p.Name
    Desc := toValidUTF8 p.Desc
    State := toValidUTF8 p.State
    Org := toValidUTF8 p.Org }

/-! ## An environment to run examples in -/

/-- A stand-in for `pem.Decode`: a block is found when the data starts with a
`BEGIN` line, and its bytes are the data. -/
def samplePemDecode (data : Bytes) : Option PemBlock :=
  if (lit "-----BEGIN ").isPrefixOf data then some ⟨data⟩ else none

/-- A stand-in for `x509.ParseCertificate`: every non-empty input is the
certificate issued by `Org1.example.com` to `Admin@org1`. -/
def sampleParseCertificate (der : Bytes) : Option Certificate :=
  if der = [] then none else some ⟨[lit "Org1.example.com"], lit "Admin@org1"⟩

/-- The example environment: the reference JSON encoder, the stand-in
certificate readers, a clock that advances by one nanosecond at every reading,
and an accessor that never fails. -/
def sampleEnv : Env where
  jsonMarshal := goJsonMarshal
  pemDecode := samplePemDecode
  parseCertificate := sampleParseCertificate
  now := fun n => 1509800000000000000 + (n : Int)
  fault := fun _ => none

/-- The example environment with another stand-in for `x509.ParseCertificate`:
the subject's common name is the first 16 bytes of the input, so that different
credentials give different callers. -/
def echoEnv : Env :=
  { sampleEnv with
    parseCertificate := fun der => some ⟨[lit "Org2.example.com"], der.take 16⟩ }

/-- The world with an empty ledger, before any call. -/
def emptyWorld : World := ⟨fun _ => none, [], 0⟩

/-- A credential the example environment accepts. -/
def sampleCredential : Bytes :=
  lit "\n\x07Org1MSP\x12\x2e-----BEGIN CERTIFICATE-----\nMIIB\n-----END CERTIFICATE-----\n"

/-! ## Vocabulary of the statements -/

/-- The record `add` builds in world `w` from its four arguments: the two
timestamps are the next two readings of the clock. -/
def newProduct (E : Env) (w : World) (a0 a1 a2 a3 : GoString) : Product :=
  ⟨lit "product", a0, a1, a2, a3, E.now w.ticks, E.now (w.ticks + 1)⟩

/-- The ordinal word by which `add` names the argument at a position. -/
def ordinal (i : Nat) : GoString :=
  if i = 0 then lit "1st" else if i = 1 then lit "2nd" else if i = 2 then lit "3rd" else lit "4th"

/-- Whether `sep` occurs in `s` at position `i`. -/
def occursAt (sep s : GoString) (i : Nat) : Prop := sep.isPrefixOf (s.drop i) = true

/-- The ledgers reached from an empty one by runs of `add`, `delete` and
`query`, with `J` as `json.Marshal` and under clocks that do not step back
between the two readings of an `add`; `same` lets a run start with any trace
and any count of clock readings. -/
inductive Reachable (J : Product → Bytes) : World → Prop where
  | empty (w : World) : (∀ k, w.ledger k = none) → Reachable J w
  | same (w w' : World) : Reachable J w → w'.ledger = w.ledger → Reachable J w'
  | add (E : Env) (args : List GoString) (w : World) : Reachable J w → E.jsonMarshal = J →
      E.now w.ticks ≤ E.now (w.ticks + 1) → Reachable J (add E args w).2
  | delete (E : Env) (args : List GoString) (w : World) : Reachable J w →
      Reachable J (delete E args w).2
  | query (E : Env) (args : List GoString) (w : World) : Reachable J w →
      Reachable J (query E args w).2

/-! ## Lemmas on `add`, `delete` and `query` -/

theorem length_le_zero_iff (a : GoString) : a.length ≤ 0 ↔ a = [] := by
  rw [Nat.le_zero, List.length_eq_zero]

/-- An argument list is either four non-empty strings, or rejected by `add`
before any accessor call, with a message that depends on the arguments only. -/
theorem add_args_cases (args : List GoString) :
    (∃ a0 a1 a2 a3, args = [a0, a1, a2, a3] ∧ a0 ≠ [] ∧ a1 ≠ [] ∧ a2 ≠ [] ∧ a3 ≠ []) ∨
    (∃ msg, ∀ (E : Env) (w : World), add E args w = (shim.Error msg, w)) := by
  match args with
  | [] => exact Or.inr ⟨_, fun _ _ => rfl⟩
  | [_] => exact Or.inr ⟨_, fun _ _ => rfl⟩
  | [_, _] => exact Or.inr ⟨_, fun _ _ => rfl⟩
  | [_, _, _] => exact Or.inr ⟨_, fun _ _ => rfl⟩
  | _ :: _ :: _ :: _ :: _ :: _ => exact Or.inr ⟨_, fun _ _ => rfl⟩
  | [a0, a1, a2, a3] =>
    by_cases h0 : a0 = []
    · exact Or.inr ⟨_, fun E w => by simp [add, h0]; rfl⟩
    by_cases h1 : a1 = []
    · exact Or.inr ⟨_, fun E w => by simp [add, h0, h1]; rfl⟩
    by_cases h2 : a2 = []
    · exact Or.inr ⟨_, fun E w => by simp [add, h0, h1, h2]; rfl⟩
    by_cases h3 : a3 = []
    · exact Or.inr ⟨_, fun E w => by simp [add, h0, h1, h2, h3]; rfl⟩
    exact Or.inl ⟨a0, a1, a2, a3, rfl, h0, h1, h2, h3⟩

/-- The existence read of `add` fails. -/
theorem add_read_fault (E : Env) (w : World) {a0 a1 a2 a3 m : GoString}
    (h0 : a0 ≠ []) (h1 : a1 ≠ []) (h2 : a2 ≠ []) (h3 : a3 ≠ [])
    (hget : nextFault E w = some m) :
    add E [a0, a1, a2, a3] w =
      (shim.Error (lit "Failed to get product: " ++ m),
        { w with calls := w.calls ++ [Call.get a0] }) := by
  simp [add, GetState, h0, h1, h2, h3, hget]

/-- The key of `add` already holds a value. -/
theorem add_existing (E : Env) (w : World) {a0 a1 a2 a3 v : GoString}
    (h0 : a0 ≠ []) (h1 : a1 ≠ []) (h2 : a2 ≠ []) (h3 : a3 ≠ [])
    (hget : nextFault E w = none) (hv : w.ledger a0 = some v) :
    add E [a0, a1, a2, a3] w =
      (shim.Error (lit "This product already exists: " ++ a0),
        { w with calls := w.calls ++ [Call.get a0] }) := by
  simp [add, GetState, h0, h1, h2, h3, hget, hv]

/-- The key of `add` is free and the write succeeds. -/
theorem add_fresh (E : Env) (w : World) {a0 a1 a2 a3 : GoString}
    (h0 : a0 ≠ []) (h1 : a1 ≠ []) (h2 : a2 ≠ []) (h3 : a3 ≠ [])
    (hget : nextFault E w = none) (hv : w.ledger a0 = none)
    (hput : E.fault (w.calls.length + 1) = none) :
    add E [a0, a1, a2, a3] w =
      (shim.Success [],
        { ledger := fun k =>
            if k = a0 then some (E.jsonMarshal (newProduct E w a0 a1 a2 a3)) else w.ledger k
          calls := w.calls ++ [Call.get a0,
            Call.put a0 (E.jsonMarshal (newProduct E w a0 a1 a2 a3))]
          ticks := w.ticks + 2 }) := by
  simp [add, GetState, PutState, timeNow, nextFault, newProduct, h0, h1, h2, h3, hv, hput,
    show E.fault w.calls.length = none from hget]

/-- The key of `add` is free and the write fails. -/
theorem add_write_fault (E : Env) (w : World) {a0 a1 a2 a3 m : GoString}
    (h0 : a0 ≠ []) (h1 : a1 ≠ []) (h2 : a2 ≠ []) (h3 : a3 ≠ [])
    (hget : nextFault E w = none) (hv : w.ledger a0 = none)
    (hput : E.fault (w.calls.length + 1) = some m) :
    add E [a0, a1, a2, a3] w =
      (shim.Error m,
        { ledger := w.ledger
          calls := w.calls ++ [Call.get a0,
            Call.put a0 (E.jsonMarshal (newProduct E w a0 a1 a2 a3))]
          ticks := w.ticks + 2 }) := by
  simp [add, GetState, PutState, timeNow, nextFault, newProduct, h0, h1, h2, h3, hv, hput,
    show E.fault w.calls.length = none from hget]

/-- A successful `add` had four non-empty arguments, found its key free, and
left the world with the new record under the key. -/
theorem add_success_inv (E : Env) (w : World) (args : List GoString)
    (hok : (add E args w).1 = shim.Success []) :
    ∃ a0 a1 a2 a3, args = [a0, a1, a2, a3] ∧ a0 ≠ [] ∧ a1 ≠ [] ∧ a2 ≠ [] ∧ a3 ≠ [] ∧
      nextFault E w = none ∧ w.ledger a0 = none ∧ E.fault (w.calls.length + 1) = none := by
  rcases add_args_cases args with ⟨a0, a1, a2, a3, rfl, h0, h1, h2, h3⟩ | ⟨msg, hmsg⟩
  · refine ⟨a0, a1, a2, a3, rfl, h0, h1, h2, h3, ?_⟩
    cases hget : nextFault E w with
    | some m =>
      rw [add_read_fault E w h0 h1 h2 h3 hget] at hok
      simp [shim.Error, shim.Success] at hok
    | none =>
      cases hv : w.ledger a0 with
      | some v =>
        rw [add_existing E w h0 h1 h2 h3 hget hv] at hok
        simp [shim.Error, shim.Success] at hok
      | none =>
        cases hput : E.fault (w.calls.length + 1) with
        | some m =>
          rw [add_write_fault E w h0 h1 h2 h3 hget hv hput] at hok
          simp [shim.Error, shim.Success] at hok
        | none => exact ⟨rfl, rfl, rfl⟩
  · rw [hmsg E w] at hok
    simp [shim.Error, shim.Success] at hok

/-- The read of `query` succeeds. -/
theorem query_read (E : Env) (w : World) (name : GoString) (hget : nextFault E w = none) :
    query E [name] w =
      ((match w.ledger name with
        | none => ⟨404, lit "Entity not found", []⟩
        | some v => shim.Success v),
        { w with calls := w.calls ++ [Call.get name] }) := by
  cases hv : w.ledger name <;> simp [query, GetState, hget, hv]

/-- No run of `query` changes the ledger. -/
theorem query_ledger (E : Env) (w : World) (args : List GoString) :
    (query E args w).2.ledger = w.ledger := by
  match args with
  | [] => rfl
  | _ :: _ :: _ => rfl
  | [name] =>
    cases hget : nextFault E w with
    | none => rw [query_read E w name hget]
    | some m => simp [query, GetState, hget]

/-- The removal of `delete` succeeds. -/
theorem delete_ok (E : Env) (w : World) (name : GoString) (hdel : nextFault E w = none) :
    delete E [name] w =
      (shim.Success [],
        { w with
          ledger := fun k => if k = name then none else w.ledger k
          calls := w.calls ++ [Call.del name] }) := by
  simp [delete, DelState, hdel]

/-- The removal of `delete` fails. -/
theorem delete_fault (E : Env) (w : World) (name m : GoString)
    (hdel : nextFault E w = some m) :
    delete E [name] w = (shim.Error m, { w with calls := w.calls ++ [Call.del name] }) := by
  simp [delete, DelState, hdel]

/-! ## Lemmas on the coercion to valid UTF-8 -/

/-- A decoded rune takes at least one byte. -/
theorem decodeRune_size_pos {s : Bytes} {r n : Nat} (h : decodeRune s = some (r, n)) :
    1 ≤ n := by
  unfold decodeRune at h
  split at h
  · simp at h
  · simp only at h
    repeat' split at h
    all_goals simp at h
    all_goals omega

/-- On valid input the coercion changes nothing. -/
theorem coerceFuel_of_valid (fuel : Nat) :
    ∀ s : Bytes, s.length ≤ fuel → validFuel fuel s = true → coerceFuel fuel s = s := by
  induction fuel with
  | zero =>
    intro s hlen _
    have : s = [] := List.length_eq_zero.mp (Nat.le_zero.mp hlen)
    subst this
    rfl
  | succ fuel ih =>
    intro s hlen hvalid
    match s with
    | [] => rfl
    | b :: rest =>
      cases hd : decodeRune (b :: rest) with
      | none => simp [validFuel, hd] at hvalid
      | some rn =>
        obtain ⟨r, n⟩ := rn
        have hn := decodeRune_size_pos hd
        simp only [validFuel, hd] at hvalid
        simp only [coerceFuel, hd]
        rw [ih _ (by simp only [List.length_drop, List.length_cons] at hlen ⊢; omega) hvalid]
        exact List.take_append_drop n (b :: rest)

/-- On a valid UTF-8 string `encoding/json` keeps the string as it is. -/
theorem toValidUTF8_of_valid (s : GoString) (h : utf8Valid s = true) : toValidUTF8 s = s :=
  coerceFuel_of_valid s.length s (Nat.le_refl _) h

/-! ## Lemmas on the clock -/

/-- How `add` depends on the clock: its response does not; its ledger does only
when it succeeds; and nothing does beyond the next two readings. -/
theorem add_clock (E : Env) (clock : Nat → Time) (args : List GoString) (w : World) :
    (add { E with now := clock } args w).1 = (add E args w).1 ∧
    ((add E args w).1 ≠ shim.Success [] →
      (add { E with now := clock } args w).2.ledger = (add E args w).2.ledger) ∧
    (clock w.ticks = E.now w.ticks → clock (w.ticks + 1) = E.now (w.ticks + 1) →
      add { E with now := clock } args w = add E args w) := by
  rcases add_args_cases args with ⟨a0, a1, a2, a3, rfl, h0, h1, h2, h3⟩ | ⟨msg, hmsg⟩
  · cases hget : nextFault E w with
    | some m =>
      have hget' : nextFault { E with now := clock } w = some m := hget
      rw [add_read_fault E w h0 h1 h2 h3 hget, add_read_fault _ w h0 h1 h2 h3 hget']
      exact ⟨rfl, fun _ => rfl, fun _ _ => rfl⟩
    | none =>
      have hget' : nextFault { E with now := clock } w = none := hget
      cases hv : w.ledger a0 with
      | some v =>
        rw [add_existing E w h0 h1 h2 h3 hget hv, add_existing _ w h0 h1 h2 h3 hget' hv]
        exact ⟨rfl, fun _ => rfl, fun _ _ => rfl⟩
      | none =>
        cases hput : E.fault (w.calls.length + 1) with
        | some m =>
          have hput' : ({ E with now := clock } : Env).fault (w.calls.length + 1) = some m := hput
          rw [add_write_fault E w h0 h1 h2 h3 hget hv hput,
            add_write_fault _ w h0 h1 h2 h3 hget' hv hput']
          refine ⟨rfl, fun _ => rfl, fun e0 e1 => ?_⟩
          simp [newProduct, e0, e1]
        | none =>
          have hput' : ({ E with now := clock } : Env).fault (w.calls.length + 1) = none := hput
          rw [add_fresh E w h0 h1 h2 h3 hget hv hput, add_fresh _ w h0 h1 h2 h3 hget' hv hput']
          refine ⟨rfl, fun h => absurd rfl h, fun e0 e1 => ?_⟩
          simp [newProduct, e0, e1]
  · rw [hmsg E w, hmsg _ w]
    exact ⟨rfl, fun _ => rfl, fun _ _ => rfl⟩

/-! ## Lemmas on `Init` and on the frame of the operations -/

/-- Both holdings parse and both writes of `Init` succeed. -/
theorem Init_ok (E : Env) (w : World) (c : Except GoString Bytes) (f a aStr b bStr : GoString)
    {aVal bVal : Int} (ha : Atoi aStr = some aVal) (hb : Atoi bStr = some bVal)
    (hput1 : nextFault E w = none) (hput2 : E.fault (w.calls.length + 1) = none) :
    Init E ⟨c, f, [a, aStr, b, bStr]⟩ w =
      (shim.Success [],
        { ledger := fun k =>
            if k = b then some (Itoa bVal) else if k = a then some (Itoa aVal) else w.ledger k
          calls := w.calls ++ [Call.put a (Itoa aVal), Call.put b (Itoa bVal)]
          ticks := w.ticks }) := by
  simp [Init, PutState, nextFault, ha, hb, hput2, show E.fault w.calls.length = none from hput1]

/-- A write changes the key written only. -/
theorem PutState_frame (E : Env) (key k : GoString) (v : Bytes) (w : World) (hk : k ≠ key) :
    (PutState E key v w).2.ledger k = w.ledger k := by
  unfold PutState
  cases nextFault E w <;> simp [hk]

/-- A removal changes the key removed only. -/
theorem DelState_frame (E : Env) (key k : GoString) (w : World) (hk : k ≠ key) :
    (DelState E key w).2.ledger k = w.ledger k := by
  unfold DelState
  cases nextFault E w <;> simp [hk]

/-- The ledger after `add`: the one before, except under the name when `add`
succeeds. -/
theorem add_ledger (E : Env) (w : World) (args : List GoString) :
    (add E args w).2.ledger = w.ledger ∨
    ∃ a0 a1 a2 a3, args = [a0, a1, a2, a3] ∧ nextFault E w = none ∧ w.ledger a0 = none ∧
      (add E args w).2.ledger = fun k =>
        if k = a0 then some (E.jsonMarshal (newProduct E w a0 a1 a2 a3)) else w.ledger k := by
  rcases add_args_cases args with ⟨a0, a1, a2, a3, rfl, h0, h1, h2, h3⟩ | ⟨msg, hmsg⟩
  · cases hget : nextFault E w with
    | some m => left; rw [add_read_fault E w h0 h1 h2 h3 hget]
    | none =>
      cases hv : w.ledger a0 with
      | some v => left; rw [add_existing E w h0 h1 h2 h3 hget hv]
      | none =>
        cases hput : E.fault (w.calls.length + 1) with
        | some m => left; rw [add_write_fault E w h0 h1 h2 h3 hget hv hput]
        | none =>
          right
          exact ⟨a0, a1, a2, a3, rfl, rfl, hv, by rw [add_fresh E w h0 h1 h2 h3 hget hv hput]⟩
  · left; rw [hmsg E w]

/-- The ledger after `delete`: the one before, except under the name. -/
theorem delete_ledger (E : Env) (w : World) (args : List GoString) :
    (delete E args w).2.ledger = w.ledger ∨
    ∃ name, args = [name] ∧
      (delete E args w).2.ledger = fun k => if k = name then none else w.ledger k := by
  match args with
  | [] => exact Or.inl rfl
  | _ :: _ :: _ => exact Or.inl rfl
  | [name] =>
    cases hf : nextFault E w with
    | none => right; exact ⟨name, rfl, by rw [delete_ok E w name hf]⟩
    | some m => left; rw [delete_fault E w name m hf]

/-! ## Lemmas on `strings.Index` and `strings.Split` with a one-byte separator -/

/-- Taking as many elements as `takeWhile` keeps gives what `takeWhile` keeps. -/
theorem take_length_takeWhile (q : UInt8 → Bool) (s : GoString) :
    s.take (s.takeWhile q).length = s.takeWhile q := by
  induction s with
  | nil => rfl
  | cons c cs ih =>
    by_cases hc : q c = true
    · simp [List.takeWhile_cons, hc, ih]
    · simp [List.takeWhile_cons, hc]

/-- The first position of the byte `d` in `s`. -/
theorem indexFrom_single (d : UInt8) (s : GoString) (i : Nat) :
    indexFrom [d] s i =
      if d ∈ s then some (i + (s.takeWhile (fun b => b != d)).length) else none := by
  induction s generalizing i with
  | nil => simp [indexFrom]
  | cons c cs ih =>
    by_cases hc : d = c
    · subst hc
      simp [indexFrom, List.isPrefixOf, List.takeWhile_cons]
    · have hc' : c ≠ d := fun e => hc e.symm
      simp only [indexFrom, List.isPrefixOf, List.takeWhile_cons, ih, List.mem_cons]
      simp [hc, hc']
      split
      · simp; omega
      · simp

/-- The first piece of `strings.Split(s, d)` for a one-byte separator `d`: the
bytes of `s` before the first `d`. -/
theorem stringsSplit_single_head (d : UInt8) (s : GoString) :
    ∃ pieces, stringsSplit s [d] = s.takeWhile (fun b => b != d) :: pieces := by
  unfold stringsSplit
  match s with
  | [] => exact ⟨[], rfl⟩
  | c :: cs =>
    simp only [List.length_cons, splitFuel, indexFrom_single]
    by_cases hd : d ∈ c :: cs
    · simp only [hd, if_true, Nat.zero_add, take_length_takeWhile]
      exact ⟨_, rfl⟩
    · simp only [hd, if_false]
      refine ⟨[], ?_⟩
      congr 1
      symm
      apply List.takeWhile_eq_self_iff.mpr
      intro b hb
      simp only [bne_iff_ne, ne_eq]
      exact fun e => hd (e ▸ hb)

/-! ## Lemmas on `strings.Index` and `strings.LastIndex` -/

/-- An occurrence of a non-empty `sep` lies within `s`. -/
theorem occursAt_length {sep s : GoString} {i : Nat} (hsep : sep ≠ [])
    (h : occursAt sep s i) : i + sep.length ≤ s.length := by
  unfold occursAt at h
  have hp := List.isPrefixOf_iff_prefix.mp h
  have hl := hp.length_le
  rw [List.length_drop] at hl
  have : 0 < sep.length := List.length_pos.mpr hsep
  omega

/-- What `indexFrom` returns: the first occurrence, if there is one. -/
theorem indexFrom_spec (sep : GoString) (hsep : sep ≠ []) (s : GoString) (i : Nat) :
    (∃ k, indexFrom sep s i = some (i + k) ∧ occursAt sep s k ∧
      ∀ j, occursAt sep s j → k ≤ j) ∨
    (indexFrom sep s i = none ∧ ∀ j, ¬ occursAt sep s j) := by
  induction s generalizing i with
  | nil =>
    right
    refine ⟨by simp [indexFrom, hsep], fun j h => ?_⟩
    have h1 := occursAt_length hsep h
    have h2 : 0 < sep.length := List.length_pos.mpr hsep
    simp only [List.length_nil] at h1
    omega
  | cons c cs ih =>
    by_cases h0 : sep.isPrefixOf (c :: cs) = true
    · left
      exact ⟨0, by simp [indexFrom, h0], by simpa [occursAt] using h0, fun j _ => Nat.zero_le j⟩
    · rcases ih (i + 1) with ⟨k, hk, hocc, hmin⟩ | ⟨hnone, hno⟩
      · left
        refine ⟨k + 1, ?_, by simpa [occursAt] using hocc, fun j hj => ?_⟩
        · simp only [indexFrom, h0]
          rw [hk]
          simp; omega
        · cases j with
          | zero => exact absurd (by simpa [occursAt] using hj) h0
          | succ j => exact Nat.succ_le_succ (hmin j (by simpa [occursAt] using hj))
      · right
        refine ⟨by simp only [indexFrom, h0]; simpa using hnone, fun j hj => ?_⟩
        cases j with
        | zero => exact h0 (by simpa [occursAt] using hj)
        | succ j => exact hno j (by simpa [occursAt] using hj)

/-- What `lastIndexFrom` returns: the last occurrence, if there is one, and
otherwise what it was given. -/
theorem lastIndexFrom_spec (sep : GoString) (hsep : sep ≠ []) (s : GoString) (i : Nat)
    (acc : Option Nat) :
    (∃ k, lastIndexFrom sep s i acc = some (i + k) ∧ occursAt sep s k ∧
      ∀ j, occursAt sep s j → j ≤ k) ∨
    (lastIndexFrom sep s i acc = acc ∧ ∀ j, ¬ occursAt sep s j) := by
  induction s generalizing i acc with
  | nil =>
    right
    refine ⟨by simp [lastIndexFrom, hsep], fun j h => ?_⟩
    have h1 := occursAt_length hsep h
    have h2 : 0 < sep.length := List.length_pos.mpr hsep
    simp only [List.length_nil] at h1
    omega
  | cons c cs ih =>
    rcases ih (i + 1) (if sep.isPrefixOf (c :: cs) = true then some i else acc) with
      ⟨k, hk, hocc, hmax⟩ | ⟨hacc, hno⟩
    · left
      refine ⟨k + 1, ?_, by simpa [occursAt] using hocc, fun j hj => ?_⟩
      · simp only [lastIndexFrom]
        rw [hk]
        simp; omega
      · cases j with
        | zero => exact Nat.zero_le _
        | succ j => exact Nat.succ_le_succ (hmax j (by simpa [occursAt] using hj))
    · by_cases h0 : sep.isPrefixOf (c :: cs) = true
      · left
        refine ⟨0, ?_, by simpa [occursAt] using h0, fun j hj => ?_⟩
        · simp only [lastIndexFrom]
          rw [hacc]
          simp [h0]
        · cases j with
          | zero => exact Nat.le_refl 0
          | succ j => exact absurd (by simpa [occursAt] using hj) (hno j)
      · right
        refine ⟨?_, fun j hj => ?_⟩
        · simp only [lastIndexFrom]
          rw [hacc]
          simp [h0]
        · cases j with
          | zero => exact h0 (by simpa [occursAt] using hj)
          | succ j => exact hno j (by simpa [occursAt] using hj)


/-- The marker has five bytes. -/
theorem marker_length : marker.length = 5 := by decide

/-! ## The claims -/

/-- C3: for every list of exactly four arguments of which at least one is the
empty string, `add` returns the error whose message names, by its ordinal, the
position of the first empty argument, and the world is returned as it was: no
accessor call is made and the ledger is unchanged. -/
theorem C3_add_empty_argument (E : Env) (w : World) (args : List GoString)
    (hlen : args.length = 4) (hempty : ∃ a ∈ args, a = []) :
    add E args w =
      (shim.Error (ordinal (args.findIdx (fun a => decide (a = [])))
        ++ lit " argument must be a non-empty string"), w) := by
  match args, hlen with
  | [a0, a1, a2, a3], _ =>
    by_cases h0 : a0 = []
    · simp [add, h0, List.findIdx_cons, ordinal]; rfl
    by_cases h1 : a1 = []
    · simp [add, h0, h1, List.findIdx_cons, ordinal]; rfl
    by_cases h2 : a2 = []
    · simp [add, h0, h1, h2, List.findIdx_cons, ordinal]; rfl
    by_cases h3 : a3 = []
    · simp [add, h0, h1, h2, h3, List.findIdx_cons, ordinal]; rfl
    · simp [h0, h1, h2, h3] at hempty

/-- Witness of C3: the second of four arguments is empty. -/
theorem C3_witness :
    [lit "p1", [], lit "new", []].length = 4 ∧
    (∃ a ∈ [lit "p1", [], lit "new", []], a = ([] : GoString)) ∧
    add sampleEnv [lit "p1", [], lit "new", []] emptyWorld =
      (shim.Error (lit "2nd argument must be a non-empty string"), emptyWorld) :=
  ⟨rfl, ⟨[], by simp, rfl⟩,
    C3_add_empty_argument sampleEnv emptyWorld [lit "p1", [], lit "new", []] rfl
      ⟨[], by simp, rfl⟩⟩

/-- C2: when the four arguments are non-empty and the key `a0` already holds a
value (any value, the empty one included) that the read returns, `add`
returns the error "This product already exists: " followed by the name and
leaves the ledger as it was. In particular, on a ledger left by a successful
`add` of the same name, a second `add` is rejected so, and the key still holds
the record the first call stored. -/
theorem C2_add_existing_rejected (E : Env) (a0 a1 a2 a3 : GoString)
    (h0 : a0 ≠ []) (h1 : a1 ≠ []) (h2 : a2 ≠ []) (h3 : a3 ≠ []) :
    (∀ (w : World) (v : Bytes), nextFault E w = none → w.ledger a0 = some v →
      (add E [a0, a1, a2, a3] w).1 = shim.Error (lit "This product already exists: " ++ a0) ∧
      (add E [a0, a1, a2, a3] w).2.ledger = w.ledger) ∧
    (∀ (E0 : Env) (w0 : World) (b1 b2 b3 : GoString) (w : World),
      (add E0 [a0, b1, b2, b3] w0).1 = shim.Success [] →
      w.ledger = (add E0 [a0, b1, b2, b3] w0).2.ledger → nextFault E w = none →
      (add E [a0, a1, a2, a3] w).1 = shim.Error (lit "This product already exists: " ++ a0) ∧
      (add E [a0, a1, a2, a3] w).2.ledger = (add E0 [a0, b1, b2, b3] w0).2.ledger ∧
      (add E [a0, a1, a2, a3] w).2.ledger a0 =
        some (E0.jsonMarshal (newProduct E0 w0 a0 b1 b2 b3))) := by
  have key : ∀ (w : World) (v : Bytes), nextFault E w = none → w.ledger a0 = some v →
      (add E [a0, a1, a2, a3] w).1 = shim.Error (lit "This product already exists: " ++ a0) ∧
      (add E [a0, a1, a2, a3] w).2.ledger = w.ledger := by
    intro w v hget hv
    rw [add_existing E w h0 h1 h2 h3 hget hv]
    exact ⟨rfl, rfl⟩
  refine ⟨key, ?_⟩
  intro E0 w0 b1 b2 b3 w hok hw hget
  obtain ⟨c0, c1, c2, c3, hargs, g0, g1, g2, g3, hget0, hv0, hput0⟩ :=
    add_success_inv E0 w0 _ hok
  simp only [List.cons.injEq, and_true] at hargs
  obtain ⟨rfl, rfl, rfl, rfl⟩ := hargs
  have hstored : w.ledger a0 = some (E0.jsonMarshal (newProduct E0 w0 a0 b1 b2 b3)) := by
    rw [hw, add_fresh E0 w0 g0 g1 g2 g3 hget0 hv0 hput0]
    simp
  obtain ⟨hresp, hled⟩ := key w _ hget hstored
  exact ⟨hresp, by rw [hled, hw], by rw [hled, hstored]⟩

/-- Witness of C2: a second `add` of `p1` on the ledger left by a first one. -/
theorem C2_witness :
    (lit "p1" ≠ [] ∧ lit "d2" ≠ [] ∧ lit "s2" ≠ [] ∧ lit "o2" ≠ []) ∧
    (add sampleEnv [lit "p1", lit "d", lit "s", lit "o"] emptyWorld).1 = shim.Success [] ∧
    (add sampleEnv [lit "p1", lit "d2", lit "s2", lit "o2"]
      (add sampleEnv [lit "p1", lit "d", lit "s", lit "o"] emptyWorld).2).1 =
        shim.Error (lit "This product already exists: p1") ∧
    (add sampleEnv [lit "p1", lit "d2", lit "s2", lit "o2"]
      (add sampleEnv [lit "p1", lit "d", lit "s", lit "o"] emptyWorld).2).2.ledger (lit "p1") =
        some (goJsonMarshal (newProduct sampleEnv emptyWorld (lit "p1") (lit "d") (lit "s")
          (lit "o"))) :=
  have h := (C2_add_existing_rejected sampleEnv (lit "p1") (lit "d2") (lit "s2") (lit "o2")
    (by decide) (by decide) (by decide) (by decide)).2 sampleEnv emptyWorld (lit "d") (lit "s")
    (lit "o") (add sampleEnv [lit "p1", lit "d", lit "s", lit "o"] emptyWorld).2 rfl rfl rfl
  ⟨⟨by decide, by decide, by decide, by decide⟩, rfl, h.1, h.2.2⟩

/-- C4, the code at the rejected inputs: `add` answers a wrong argument count,
an empty argument and an existing name through `shim.Error`, the response it
also gives when the accessor fails, with status 500, and no response of `add`
has status 403; `delete` and `query` answer a wrong argument count with status
403. -/
theorem C4_add_rejections_status (E : Env) (w : World) (args : List GoString) :
    (add E args w).1.Status ≠ 403 ∧
    add E [] w = (shim.Error (lit "Incorrect number of arguments. Expecting 4"), w) ∧
    (add E [] w).1.Status = 500 ∧
    add E [[], lit "d", lit "s", lit "o"] w =
      (⟨500, lit "1st argument must be a non-empty string", []⟩, w) ∧
    (add sampleEnv [lit "p1", lit "d2", lit "s2", lit "o2"]
      (add sampleEnv [lit "p1", lit "d", lit "s", lit "o"] emptyWorld).2).1 =
        ⟨500, lit "This product already exists: p1", []⟩ ∧
    (add { E with fault := fun _ => some (lit "db down") } [lit "p1", lit "d", lit "s", lit "o"]
      w).1 = ⟨500, lit "Failed to get product: db down", []⟩ ∧
    (delete E [] w).1 = ⟨403, lit "Incorrect number of arguments", []⟩ ∧
    (query E [] w).1 = ⟨403, lit "Incorrect number of arguments", []⟩ := by
  refine ⟨?_, rfl, rfl, rfl, rfl, rfl, rfl, rfl⟩
  rcases add_args_cases args with ⟨a0, a1, a2, a3, rfl, h0, h1, h2, h3⟩ | ⟨msg, hmsg⟩
  · cases hget : nextFault E w with
    | some m => rw [add_read_fault E w h0 h1 h2 h3 hget]; simp [shim.Error]
    | none =>
      cases hv : w.ledger a0 with
      | some v => rw [add_existing E w h0 h1 h2 h3 hget hv]; simp [shim.Error]
      | none =>
        cases hput : E.fault (w.calls.length + 1) with
        | some m => rw [add_write_fault E w h0 h1 h2 h3 hget hv hput]; simp [shim.Error]
        | none => rw [add_fresh E w h0 h1 h2 h3 hget hv hput]; simp [shim.Success]
  · rw [hmsg E w]; simp [shim.Error]

/-- C5: when the read succeeds, `query` on one argument returns the not-found
response exactly when the key holds no value, and otherwise the success
response whose payload is the stored value; on an argument list whose length is
not one it returns status 403 with "Incorrect number of arguments"; in every
case the ledger is unchanged. -/
theorem C5_query (E : Env) (w : World) :
    (∀ name : GoString, nextFault E w = none →
      ((query E [name] w).1 = ⟨404, lit "Entity not found", []⟩ ↔ w.ledger name = none) ∧
      (∀ v, w.ledger name = some v → (query E [name] w).1 = ⟨200, [], v⟩)) ∧
    (∀ args : List GoString, args.length ≠ 1 →
      (query E args w).1 = ⟨403, lit "Incorrect number of arguments", []⟩) ∧
    (∀ args : List GoString, (query E args w).2.ledger = w.ledger) := by
  refine ⟨?_, ?_, query_ledger E w⟩
  · intro name hget
    rw [query_read E w name hget]
    cases hv : w.ledger name with
    | none => simp
    | some v => simp [shim.Success]
  · intro args hlen
    match args, hlen with
    | [], _ => rfl
    | _ :: _ :: _, _ => rfl

/-- Witness of C5: a query of a stored key, of a free key, and with no argument. -/
theorem C5_witness :
    (query sampleEnv [lit "A"] ⟨fun k => if k = lit "A" then some (lit "100") else none, [], 0⟩).1
      = ⟨200, [], lit "100"⟩ ∧
    (query sampleEnv [lit "B"] ⟨fun k => if k = lit "A" then some (lit "100") else none, [], 0⟩).1
      = ⟨404, lit "Entity not found", []⟩ ∧
    (query sampleEnv [] ⟨fun k => if k = lit "A" then some (lit "100") else none, [], 0⟩).1
      = ⟨403, lit "Incorrect number of arguments", []⟩ :=
  have h := C5_query sampleEnv ⟨fun k => if k = lit "A" then some (lit "100") else none, [], 0⟩
  ⟨(h.1 (lit "A") rfl).2 (lit "100") (by decide), ((h.1 (lit "B") rfl).1).2 (by decide),
    h.2.1 [] (by decide)⟩

/-- C10: if `delete` of a name returns success, then `query` of that name, run
on the resulting ledger with a read that succeeds, returns the not-found
response (status 404, "Entity not found"). -/
theorem C10_query_after_delete (E : Env) (w : World) (name : GoString)
    (hdel : (delete E [name] w).1 = shim.Success [])
    (E' : Env) (w' : World) (hw : w'.ledger = (delete E [name] w).2.ledger)
    (hread : nextFault E' w' = none) :
    (query E' [name] w').1 = ⟨404, lit "Entity not found", []⟩ := by
  have hnone : w'.ledger name = none := by
    rw [hw]
    cases hf : nextFault E w with
    | none => rw [delete_ok E w name hf]; simp
    | some m =>
      rw [delete_fault E w name m hf] at hdel
      simp [shim.Error, shim.Success] at hdel
  rw [query_read E' w' name hread, hnone]

/-- Witness of C10: `add` creates the record under `p1`, `delete` removes it,
and `query` then answers not found. -/
theorem C10_witness :
    (add sampleEnv [lit "p1", lit "d", lit "s", lit "o"] emptyWorld).1 = shim.Success [] ∧
    (query sampleEnv [lit "p1"]
      (add sampleEnv [lit "p1", lit "d", lit "s", lit "o"] emptyWorld).2).1.Status = 200 ∧
    (delete sampleEnv [lit "p1"]
      (add sampleEnv [lit "p1", lit "d", lit "s", lit "o"] emptyWorld).2).1 = shim.Success [] ∧
    (query sampleEnv [lit "p1"] (delete sampleEnv [lit "p1"]
      (add sampleEnv [lit "p1", lit "d", lit "s", lit "o"] emptyWorld).2).2).1 =
        ⟨404, lit "Entity not found", []⟩ :=
  ⟨rfl, rfl, rfl,
    C10_query_after_delete sampleEnv
      (add sampleEnv [lit "p1", lit "d", lit "s", lit "o"] emptyWorld).2 (lit "p1") rfl
      sampleEnv _ rfl rfl⟩

/-- C6, as amended: for every request whose credential is retrieved and on
which `getCreator` returns, and whose function name is none of "add", "delete"
and "query", `Invoke` returns status 403 with "Invalid invoke function name."
and the world is returned as it was. -/
theorem C6_invalid_function_name (E : Env) (w : World) (req : Request)
    (cred : Bytes) (id : GoString × GoString)
    (hcred : req.creator = .ok cred) (hid : getCreator E cred = .ok id)
    (hadd : req.function ≠ lit "add") (hdelete : req.function ≠ lit "delete")
    (hquery : req.function ≠ lit "query") :
    Invoke E req w = (.ok ⟨403, lit "Invalid invoke function name.", []⟩, w) := by
  simp [Invoke, hcred, hid, hadd, hdelete, hquery]

/-- Witness of C6: the names "Add" and "" with the sample credential. -/
theorem C6_witness :
    getCreator sampleEnv sampleCredential = .ok (lit "Admin@org1", lit "Org1") ∧
    Invoke sampleEnv ⟨.ok sampleCredential, lit "Add", [lit "p1"]⟩ emptyWorld =
      (.ok ⟨403, lit "Invalid invoke function name.", []⟩, emptyWorld) ∧
    Invoke sampleEnv ⟨.ok sampleCredential, [], []⟩ emptyWorld =
      (.ok ⟨403, lit "Invalid invoke function name.", []⟩, emptyWorld) :=
  ⟨by decide,
    C6_invalid_function_name sampleEnv emptyWorld ⟨.ok sampleCredential, lit "Add", [lit "p1"]⟩
      sampleCredential (lit "Admin@org1", lit "Org1") rfl (by decide) (by decide) (by decide)
      (by decide),
    C6_invalid_function_name sampleEnv emptyWorld ⟨.ok sampleCredential, [], []⟩
      sampleCredential (lit "Admin@org1", lit "Org1") rfl (by decide) (by decide) (by decide)
      (by decide)⟩

/-- Counterexample to C6 as stated: the credential `"no certificate here"` is
retrieved, the function name `"foo"` is none of the three, and `Invoke` ends in
the slice-bounds panic instead of returning the 403 response. -/
theorem C6_counterexample :
    lit "foo" ≠ lit "add" ∧ lit "foo" ≠ lit "delete" ∧ lit "foo" ≠ lit "query" ∧
    (Invoke sampleEnv ⟨.ok (lit "no certificate here"), lit "foo", []⟩ emptyWorld).1 =
      .error Panic.sliceBounds ∧
    (Invoke sampleEnv ⟨.ok (lit "no certificate here"), lit "foo", []⟩ emptyWorld).1 ≠
      .ok ⟨403, lit "Invalid invoke function name.", []⟩ := by
  decide

/-- C7, the code at the failing inputs: on the empty credential `getCreator`
ends in the slice-bounds panic (the bounds are `-1` and `4`), and so does
`Invoke`, whatever the libraries, the function name and the arguments are; when
`pem.Decode` finds no block, or `x509.ParseCertificate` returns no certificate,
the nil result is dereferenced; and an empty issuer organization list is
indexed out of range. -/
theorem C7_getCreator_faults (E : Env) (w : World) (fn : GoString) (args : List GoString) :
    stringsIndex [] marker = -1 ∧ stringsLastIndex [] marker + 5 = 4 ∧
    getCreator E [] = .error Panic.sliceBounds ∧
    Invoke E ⟨.ok [], fn, args⟩ w = (.error Panic.sliceBounds, w) ∧
    getCreator { E with pemDecode := fun _ => none } marker = .error Panic.nilDereference ∧
    getCreator { E with pemDecode := fun d => some ⟨d⟩, parseCertificate := fun _ => none }
      marker = .error Panic.nilDereference ∧
    getCreator { E with
      pemDecode := fun d => some ⟨d⟩
      parseCertificate := fun _ => some ⟨[], lit "Admin@org1"⟩ } marker =
        .error Panic.indexOutOfRange := by
  refine ⟨by decide, by decide, rfl, rfl, ?_, ?_, ?_⟩ <;> rfl

/-- C1, as amended: when the four arguments are non-empty, the key `a0` holds
no value and the accessor's read and write succeed, `add` returns the success
response, and a `query` of `a0` on the resulting ledger returns status 200 with
the `json.Marshal` of the record built from the arguments as payload. For a
decoder that inverts `json.Marshal` on that record up to the coercion of its
strings to valid UTF-8, the payload decodes to a product whose objectType is
"product" and whose name, description, state and org are the four arguments
coerced to valid UTF-8: the arguments themselves wherever they are valid
UTF-8. -/
theorem C1_add_then_query (E : Env) (w : World) (a0 a1 a2 a3 : GoString)
    (unmarshal : Bytes → Option Product)
    (h0 : a0 ≠ []) (h1 : a1 ≠ []) (h2 : a2 ≠ []) (h3 : a3 ≠ [])
    (hv : w.ledger a0 = none)
    (hget : nextFault E w = none) (hput : E.fault (w.calls.length + 1) = none)
    (hjson : unmarshal (E.jsonMarshal (newProduct E w a0 a1 a2 a3)) =
      some (newProduct E w a0 a1 a2 a3).coerced)
    (E' : Env) (w' : World) (hw : w'.ledger = (add E [a0, a1, a2, a3] w).2.ledger)
    (hread : nextFault E' w' = none) :
    (add E [a0, a1, a2, a3] w).1 = shim.Success [] ∧
    (query E' [a0] w').1 = ⟨200, [], E.jsonMarshal (newProduct E w a0 a1 a2 a3)⟩ ∧
    ∃ p, unmarshal (query E' [a0] w').1.Payload = some p ∧
      p.ObjectType = lit "product" ∧
      p.Name = toValidUTF8 a0 ∧ p.Desc = toValidUTF8 a1 ∧
      p.State = toValidUTF8 a2 ∧ p.Org = toValidUTF8 a3 ∧
      (utf8Valid a0 = true → p.Name = a0) ∧ (utf8Valid a1 = true → p.Desc = a1) ∧
      (utf8Valid a2 = true → p.State = a2) ∧ (utf8Valid a3 = true → p.Org = a3) := by
  have hstored : w'.ledger a0 = some (E.jsonMarshal (newProduct E w a0 a1 a2 a3)) := by
    rw [hw, add_fresh E w h0 h1 h2 h3 hget hv hput]
    simp
  have hq : (query E' [a0] w').1 = ⟨200, [], E.jsonMarshal (newProduct E w a0 a1 a2 a3)⟩ := by
    rw [query_read E' w' a0 hread, hstored]
    rfl
  have hobj : toValidUTF8 (lit "product") = lit "product" := by decide
  refine ⟨by rw [add_fresh E w h0 h1 h2 h3 hget hv hput], hq, _, by rw [hq]; exact hjson,
    hobj, rfl, rfl, rfl, rfl, ?_, ?_, ?_, ?_⟩
  all_goals exact fun h => toValidUTF8_of_valid _ h

set_option maxRecDepth 100000 in
/-- Witness of C1: `add` of `p1` on the empty ledger, then `query`, with the
reference JSON encoder and decoder. -/
theorem C1_witness :
    (add sampleEnv [lit "p1", lit "a \"fine\" <product>", lit "new", lit "Org1"]
      emptyWorld).1 = shim.Success [] ∧
    ∃ p, goJsonUnmarshal (query sampleEnv [lit "p1"]
        (add sampleEnv [lit "p1", lit "a \"fine\" <product>", lit "new", lit "Org1"]
          emptyWorld).2).1.Payload = some p ∧
      p.ObjectType = lit "product" ∧ p.Name = lit "p1" ∧
      p.Desc = lit "a \"fine\" <product>" ∧ p.State = lit "new" ∧ p.Org = lit "Org1" :=
  have h := C1_add_then_query sampleEnv emptyWorld (lit "p1") (lit "a \"fine\" <product>")
    (lit "new") (lit "Org1") goJsonUnmarshal (by decide) (by decide) (by decide) (by decide)
    rfl rfl rfl (by decide) sampleEnv
    (add sampleEnv [lit "p1", lit "a \"fine\" <product>", lit "new", lit "Org1"] emptyWorld).2
    rfl rfl
  ⟨h.1, h.2.2.elim fun p hp =>
    ⟨p, hp.1, hp.2.1, hp.2.2.2.2.2.2.1 (by decide), hp.2.2.2.2.2.2.2.1 (by decide),
      hp.2.2.2.2.2.2.2.2.1 (by decide), hp.2.2.2.2.2.2.2.2.2 (by decide)⟩⟩

set_option maxRecDepth 100000 in
/-- Counterexample to C1 as stated: the name is the single byte `0xFF`, which
is non-empty; `add` succeeds on the empty ledger and `query` returns status
200, but the payload decodes to a product whose name is the three bytes of
U+FFFD, not the argument. -/
theorem C1_counterexample :
    (add sampleEnv [[0xFF], lit "d", lit "s", lit "o"] emptyWorld).1 = shim.Success [] ∧
    (query sampleEnv [[0xFF]]
      (add sampleEnv [[0xFF], lit "d", lit "s", lit "o"] emptyWorld).2).1.Status = 200 ∧
    (goJsonUnmarshal (query sampleEnv [[0xFF]]
      (add sampleEnv [[0xFF], lit "d", lit "s", lit "o"] emptyWorld).2).1.Payload).map
        Product.Name = some [0xEF, 0xBF, 0xBD] ∧
    (goJsonUnmarshal (query sampleEnv [[0xFF]]
      (add sampleEnv [[0xFF], lit "d", lit "s", lit "o"] emptyWorld).2).1.Payload).map
        Product.Name ≠ some [0xFF] := by
  decide

/-- C8, as amended: `Invoke` run with another clock on the same world and
request returns the same response; it leaves the same ledger unless the request
is an `add` that succeeds; and it returns the same response and the same world
when the next two readings of the clock are the same. -/
theorem C8_invoke_clock (E : Env) (clock : Nat → Time) (req : Request) (w : World) :
    (Invoke { E with now := clock } req w).1 = (Invoke E req w).1 ∧
    ((Invoke E req w).1 ≠ .ok (shim.Success []) ∨ req.function ≠ lit "add" →
      (Invoke { E with now := clock } req w).2.ledger = (Invoke E req w).2.ledger) ∧
    (clock w.ticks = E.now w.ticks → clock (w.ticks + 1) = E.now (w.ticks + 1) →
      Invoke { E with now := clock } req w = Invoke E req w) := by
  obtain ⟨hresp, hledger, hsame⟩ := add_clock E clock req.args w
  have hcreator : ∀ c, getCreator { E with now := clock } c = getCreator E c := fun _ => rfl
  have hdelete : delete { E with now := clock } req.args w = delete E req.args w := rfl
  have hquery : query { E with now := clock } req.args w = query E req.args w := rfl
  cases hc : req.creator with
  | error err => simp [Invoke, hc]
  | ok cred =>
    cases hid : getCreator E cred with
    | error p => simp [Invoke, hc, hcreator, hid]
    | ok id =>
      by_cases hadd : req.function = lit "add"
      · simp only [Invoke, hc, hcreator, hid, hadd, if_true]
        refine ⟨by rw [hresp], fun h => hledger ?_, fun e0 e1 => by rw [hsame e0 e1]⟩
        rcases h with h | h
        · exact fun hok => h (by rw [hok])
        · exact absurd rfl h
      · simp [Invoke, hc, hcreator, hid, hadd, hdelete, hquery]

set_option maxRecDepth 100000 in
/-- Witness of C8: a `delete` request leaves the same ledger entry under
another clock, and an `add` request gets the same response under another
clock. -/
theorem C8_witness :
    (Invoke { sampleEnv with now := fun _ => 0 }
      ⟨.ok sampleCredential, lit "delete", [lit "p1"]⟩ emptyWorld).2.ledger =
      (Invoke sampleEnv ⟨.ok sampleCredential, lit "delete", [lit "p1"]⟩ emptyWorld).2.ledger ∧
    (Invoke { sampleEnv with now := fun _ => 0 }
      ⟨.ok sampleCredential, lit "add", [lit "p1", lit "d", lit "s", lit "o"]⟩ emptyWorld).1 =
      (Invoke sampleEnv
        ⟨.ok sampleCredential, lit "add", [lit "p1", lit "d", lit "s", lit "o"]⟩ emptyWorld).1 :=
  ⟨(C8_invoke_clock sampleEnv (fun _ => 0) ⟨.ok sampleCredential, lit "delete", [lit "p1"]⟩
      emptyWorld).2.1 (Or.inr (by decide)),
    (C8_invoke_clock sampleEnv (fun _ => 0)
      ⟨.ok sampleCredential, lit "add", [lit "p1", lit "d", lit "s", lit "o"]⟩ emptyWorld).1⟩

set_option maxRecDepth 100000 in
/-- Counterexample to C8 as stated: two runs of `Invoke` on the same (empty)
ledger with the same `add` request, the second one second later by the clock,
both return success and leave different values under the key `p1`. -/
theorem C8_counterexample :
    (Invoke sampleEnv
      ⟨.ok sampleCredential, lit "add", [lit "p1", lit "d", lit "s", lit "o"]⟩
      emptyWorld).1 = .ok (shim.Success []) ∧
    (Invoke { sampleEnv with now := fun n => 1509800001000000000 + (n : Int) }
      ⟨.ok sampleCredential, lit "add", [lit "p1", lit "d", lit "s", lit "o"]⟩
      emptyWorld).1 = .ok (shim.Success []) ∧
    (Invoke sampleEnv
      ⟨.ok sampleCredential, lit "add", [lit "p1", lit "d", lit "s", lit "o"]⟩
      emptyWorld).2.ledger (lit "p1") ≠
    (Invoke { sampleEnv with now := fun n => 1509800001000000000 + (n : Int) }
      ⟨.ok sampleCredential, lit "add", [lit "p1", lit "d", lit "s", lit "o"]⟩
      emptyWorld).2.ledger (lit "p1") := by
  decide

/-- C9, as amended: for every successful `add`, the record written under the
name is the `json.Marshal` of a product made of the four arguments whose
dateCreated is the first and whose dateUpdated is the second of two successive
readings of the clock; the two dates are equal exactly when the two readings
are. -/
theorem C9_timestamps (E : Env) (w : World) (args : List GoString)
    (hok : (add E args w).1 = shim.Success []) :
    ∃ p : Product, args = [p.Name, p.Desc, p.State, p.Org] ∧
      (add E args w).2.ledger p.Name = some (E.jsonMarshal p) ∧
      (add E args w).2.calls = w.calls ++ [Call.get p.Name, Call.put p.Name (E.jsonMarshal p)] ∧
      (add E args w).2.ticks = w.ticks + 2 ∧
      p.DateCreated = E.now w.ticks ∧ p.DateUpdated = E.now (w.ticks + 1) ∧
      (p.DateCreated = p.DateUpdated ↔ E.now w.ticks = E.now (w.ticks + 1)) := by
  obtain ⟨a0, a1, a2, a3, rfl, h0, h1, h2, h3, hget, hv, hput⟩ := add_success_inv E w args hok
  refine ⟨newProduct E w a0 a1 a2 a3, rfl, ?_, ?_, ?_, rfl, rfl, Iff.rfl⟩ <;>
    rw [add_fresh E w h0 h1 h2 h3 hget hv hput] <;> simp [newProduct]

set_option maxRecDepth 100000 in
/-- Witness of C9: a successful `add` under a clock that stands still. -/
theorem C9_witness :
    (add { sampleEnv with now := fun _ => 1509800000000000000 }
      [lit "p1", lit "d", lit "s", lit "o"] emptyWorld).1 = shim.Success [] ∧
    ∃ p : Product, p.DateCreated = p.DateUpdated ∧
      (add { sampleEnv with now := fun _ => 1509800000000000000 }
        [lit "p1", lit "d", lit "s", lit "o"] emptyWorld).2.ledger p.Name =
        some (goJsonMarshal p) :=
  ⟨rfl, (C9_timestamps { sampleEnv with now := fun _ => 1509800000000000000 } emptyWorld
    [lit "p1", lit "d", lit "s", lit "o"] rfl).elim fun p hp =>
      ⟨p, hp.2.2.2.2.2.2.2 rfl, hp.2.1⟩⟩

set_option maxRecDepth 100000 in
/-- Counterexample to C9 as stated: under a clock that advances by one
nanosecond at every reading, `add` succeeds on the empty ledger and the record
it writes under `p1` has a dateUpdated one nanosecond after its dateCreated. -/
theorem C9_counterexample :
    (add sampleEnv [lit "p1", lit "d", lit "s", lit "o"] emptyWorld).1 = shim.Success [] ∧
    (((add sampleEnv [lit "p1", lit "d", lit "s", lit "o"] emptyWorld).2.ledger
      (lit "p1")).bind goJsonUnmarshal).map (fun p => (p.DateCreated, p.DateUpdated)) =
        some (1509800000000000000, 1509800000000000001) ∧
    (((add sampleEnv [lit "p1", lit "d", lit "s", lit "o"] emptyWorld).2.ledger
      (lit "p1")).bind goJsonUnmarshal).map (fun p => decide (p.DateCreated = p.DateUpdated)) =
        some false := by
  decide

/-- C11: when the removal succeeds, `delete` of a name that holds no value
returns the success response (status 200, empty payload) and leaves the ledger
as it was; and on any ledger, a second `delete` of the same name, run on the
ledger the first one left, returns the same response and leaves the same
ledger as the first. -/
theorem C11_delete_idempotent (E : Env) (w : World) (name : GoString)
    (hdel : nextFault E w = none) :
    (delete E [name] w).1 = ⟨200, [], []⟩ ∧
    (w.ledger name = none → (delete E [name] w).2.ledger = w.ledger) ∧
    (∀ (E' : Env) (w' : World), w'.ledger = (delete E [name] w).2.ledger →
      nextFault E' w' = none →
      (delete E' [name] w').1 = (delete E [name] w).1 ∧
      (delete E' [name] w').2.ledger = (delete E [name] w).2.ledger) := by
  rw [delete_ok E w name hdel]
  refine ⟨rfl, ?_, ?_⟩
  · intro hnone
    funext k
    by_cases hk : k = name
    · simp [hk, hnone]
    · simp [hk]
  · intro E' w' hw hdel'
    rw [delete_ok E' w' name hdel']
    refine ⟨rfl, ?_⟩
    funext k
    by_cases hk : k = name
    · simp [hk]
    · simp [hk, hw]

/-- Witness of C11: `delete` of `p1` on the empty ledger, and twice after an
`add` of `p1`. -/
theorem C11_witness :
    (delete sampleEnv [lit "p1"] emptyWorld).1 = ⟨200, [], []⟩ ∧
    (delete sampleEnv [lit "p1"] emptyWorld).2.ledger = emptyWorld.ledger ∧
    (delete sampleEnv [lit "p1"] (delete sampleEnv [lit "p1"]
      (add sampleEnv [lit "p1", lit "d", lit "s", lit "o"] emptyWorld).2).2).2.ledger =
      (delete sampleEnv [lit "p1"]
        (add sampleEnv [lit "p1", lit "d", lit "s", lit "o"] emptyWorld).2).2.ledger :=
  ⟨(C11_delete_idempotent sampleEnv emptyWorld (lit "p1") rfl).1,
    (C11_delete_idempotent sampleEnv emptyWorld (lit "p1") rfl).2.1 rfl,
    ((C11_delete_idempotent sampleEnv
      (add sampleEnv [lit "p1", lit "d", lit "s", lit "o"] emptyWorld).2 (lit "p1") rfl).2.2
      sampleEnv _ rfl rfl).2⟩

/-- C12, as amended: when the second and the fourth of four arguments parse as
integers `aVal` and `bVal` and both writes succeed, `Init` returns the success
response (status 200, empty payload), and in the resulting ledger the key `b`
holds the decimal string of `bVal`, and the key `a` holds the decimal string of
`aVal` when `a` and `b` are different keys. -/
theorem C12_Init_stores (E : Env) (w : World) (c : Except GoString Bytes)
    (f a aStr b bStr : GoString) (aVal bVal : Int)
    (ha : Atoi aStr = some aVal) (hb : Atoi bStr = some bVal)
    (hput1 : nextFault E w = none) (hput2 : E.fault (w.calls.length + 1) = none) :
    (Init E ⟨c, f, [a, aStr, b, bStr]⟩ w).1 = ⟨200, [], []⟩ ∧
    (Init E ⟨c, f, [a, aStr, b, bStr]⟩ w).2.ledger b = some (Itoa bVal) ∧
    (a ≠ b → (Init E ⟨c, f, [a, aStr, b, bStr]⟩ w).2.ledger a = some (Itoa aVal)) := by
  rw [Init_ok E w c f a aStr b bStr ha hb hput1 hput2]
  refine ⟨rfl, by simp, fun hab => by simp [hab]⟩

/-- Witness of C12: `Init("A", "100", "B", "200")` on the empty ledger stores
`"100"` under `"A"` and `"200"` under `"B"`. -/
theorem C12_witness :
    Atoi (lit "100") = some 100 ∧ Atoi (lit "200") = some 200 ∧
    (Init sampleEnv ⟨.ok [], lit "init", [lit "A", lit "100", lit "B", lit "200"]⟩
      emptyWorld).1 = ⟨200, [], []⟩ ∧
    (Init sampleEnv ⟨.ok [], lit "init", [lit "A", lit "100", lit "B", lit "200"]⟩
      emptyWorld).2.ledger (lit "B") = some (lit "200") ∧
    (Init sampleEnv ⟨.ok [], lit "init", [lit "A", lit "100", lit "B", lit "200"]⟩
      emptyWorld).2.ledger (lit "A") = some (lit "100") :=
  have h := C12_Init_stores sampleEnv emptyWorld (.ok []) (lit "init") (lit "A") (lit "100")
    (lit "B") (lit "200") 100 200 (by decide) (by decide) rfl rfl
  ⟨by decide, by decide, h.1, h.2.1, h.2.2 (by decide)⟩

/-- Counterexample to C12 as stated: in `Init("A", "100", "A", "200")` both
holdings parse and `Init` succeeds, but the key `"A"` holds `"200"`, not the
decimal string `"100"` of the first holding. -/
theorem C12_counterexample :
    Atoi (lit "100") = some 100 ∧ Atoi (lit "200") = some 200 ∧
    (Init sampleEnv ⟨.ok [], lit "init", [lit "A", lit "100", lit "A", lit "200"]⟩
      emptyWorld).1 = ⟨200, [], []⟩ ∧
    (Init sampleEnv ⟨.ok [], lit "init", [lit "A", lit "100", lit "A", lit "200"]⟩
      emptyWorld).2.ledger (lit "A") = some (lit "200") ∧
    (Init sampleEnv ⟨.ok [], lit "init", [lit "A", lit "100", lit "A", lit "200"]⟩
      emptyWorld).2.ledger (lit "A") ≠ some (Itoa 100) := by
  decide

/-- C13: on an argument list whose length is not four `Init` returns status 403
with "Incorrect number of arguments. Expecting 4", and on four arguments of
which the second or the fourth does not parse as an integer it returns status
403 with "Expecting integer value for asset holding"; in both cases the world
is returned as it was, so nothing is written, also when only the fourth
argument fails to parse. -/
theorem C13_Init_rejects (E : Env) (req : Request) (w : World) :
    (req.args.length ≠ 4 →
      Init E req w = (⟨403, lit "Incorrect number of arguments. Expecting 4", []⟩, w)) ∧
    (∀ a0 a1 a2 a3, req.args = [a0, a1, a2, a3] → (Atoi a1 = none ∨ Atoi a3 = none) →
      Init E req w = (⟨403, lit "Expecting integer value for asset holding", []⟩, w)) := by
  obtain ⟨c, f, args⟩ := req
  constructor
  · intro hlen
    match args, hlen with
    | [], _ => rfl
    | [_], _ => rfl
    | [_, _], _ => rfl
    | [_, _, _], _ => rfl
    | _ :: _ :: _ :: _ :: _ :: _, _ => rfl
  · intro a0 a1 a2 a3 hargs hbad
    simp only at hargs
    subst hargs
    cases ha : Atoi a1 with
    | none => simp [Init, ha]
    | some aVal =>
      rcases hbad with h | h
      · rw [ha] at h; cases h
      · simp [Init, ha, h]

/-- Witness of C13: three arguments; a second argument that is no integer; a
valid second and an invalid fourth argument. -/
theorem C13_witness :
    Init sampleEnv ⟨.ok [], lit "init", [lit "A", lit "100", lit "B"]⟩ emptyWorld =
      (⟨403, lit "Incorrect number of arguments. Expecting 4", []⟩, emptyWorld) ∧
    Init sampleEnv ⟨.ok [], lit "init", [lit "A", lit "1x", lit "B", lit "200"]⟩ emptyWorld =
      (⟨403, lit "Expecting integer value for asset holding", []⟩, emptyWorld) ∧
    Init sampleEnv ⟨.ok [], lit "init", [lit "A", lit "100", lit "B", lit ""]⟩ emptyWorld =
      (⟨403, lit "Expecting integer value for asset holding", []⟩, emptyWorld) :=
  ⟨(C13_Init_rejects sampleEnv ⟨.ok [], lit "init", [lit "A", lit "100", lit "B"]⟩
      emptyWorld).1 (by decide),
    (C13_Init_rejects sampleEnv ⟨.ok [], lit "init", [lit "A", lit "1x", lit "B", lit "200"]⟩
      emptyWorld).2 _ _ _ _ rfl (Or.inl (by decide)),
    (C13_Init_rejects sampleEnv ⟨.ok [], lit "init", [lit "A", lit "100", lit "B", lit ""]⟩
      emptyWorld).2 _ _ _ _ rfl (Or.inr (by decide))⟩

/-- C14: when an accessor call of `add`, `delete` or `query` fails with message
`m`, the operation returns status 500 with message `m` (for the existence read
of `add`: "Failed to get product: " followed by `m`), the failing call is the
last call of the trace, and the ledger is unchanged; in particular `add` makes
no write when its existence read fails. -/
theorem C14_accessor_failure (E : Env) (w : World) (m : GoString) :
    (∀ a0 a1 a2 a3 : GoString, a0 ≠ [] → a1 ≠ [] → a2 ≠ [] → a3 ≠ [] →
      nextFault E w = some m →
      add E [a0, a1, a2, a3] w =
        (⟨500, lit "Failed to get product: " ++ m, []⟩,
          { w with calls := w.calls ++ [Call.get a0] })) ∧
    (∀ a0 a1 a2 a3 : GoString, a0 ≠ [] → a1 ≠ [] → a2 ≠ [] → a3 ≠ [] →
      nextFault E w = none → w.ledger a0 = none → E.fault (w.calls.length + 1) = some m →
      (add E [a0, a1, a2, a3] w).1 = ⟨500, m, []⟩ ∧
      (add E [a0, a1, a2, a3] w).2.ledger = w.ledger ∧
      (add E [a0, a1, a2, a3] w).2.calls =
        w.calls ++ [Call.get a0, Call.put a0 (E.jsonMarshal (newProduct E w a0 a1 a2 a3))]) ∧
    (∀ name : GoString, nextFault E w = some m →
      delete E [name] w = (⟨500, m, []⟩, { w with calls := w.calls ++ [Call.del name] })) ∧
    (∀ name : GoString, nextFault E w = some m →
      query E [name] w = (⟨500, m, []⟩, { w with calls := w.calls ++ [Call.get name] })) := by
  refine ⟨?_, ?_, ?_, ?_⟩
  · intro a0 a1 a2 a3 h0 h1 h2 h3 hget
    rw [add_read_fault E w h0 h1 h2 h3 hget]
    rfl
  · intro a0 a1 a2 a3 h0 h1 h2 h3 hget hv hput
    rw [add_write_fault E w h0 h1 h2 h3 hget hv hput]
    exact ⟨rfl, rfl, rfl⟩
  · intro name hf
    rw [delete_fault E w name m hf]
    rfl
  · intro name hf
    simp [query, GetState, hf, shim.Error]

/-- Witness of C14: an accessor whose every call fails with "db down", and one
whose second call does. -/
theorem C14_witness :
    add { sampleEnv with fault := fun _ => some (lit "db down") }
      [lit "p1", lit "d", lit "s", lit "o"] emptyWorld =
      (⟨500, lit "Failed to get product: db down", []⟩,
        { emptyWorld with calls := [Call.get (lit "p1")] }) ∧
    (add { sampleEnv with fault := fun n => if n = 1 then some (lit "db down") else none }
      [lit "p1", lit "d", lit "s", lit "o"] emptyWorld).1 = ⟨500, lit "db down", []⟩ ∧
    delete { sampleEnv with fault := fun _ => some (lit "db down") } [lit "p1"] emptyWorld =
      (⟨500, lit "db down", []⟩, { emptyWorld with calls := [Call.del (lit "p1")] }) ∧
    query { sampleEnv with fault := fun _ => some (lit "db down") } [lit "p1"] emptyWorld =
      (⟨500, lit "db down", []⟩, { emptyWorld with calls := [Call.get (lit "p1")] }) :=
  ⟨(C14_accessor_failure { sampleEnv with fault := fun _ => some (lit "db down") } emptyWorld
      (lit "db down")).1 _ _ _ _ (by decide) (by decide) (by decide) (by decide) rfl,
    ((C14_accessor_failure
      { sampleEnv with fault := fun n => if n = 1 then some (lit "db down") else none }
      emptyWorld (lit "db down")).2.1 (lit "p1") (lit "d") (lit "s") (lit "o")
      (by decide) (by decide) (by decide) (by decide) rfl rfl rfl).1,
    (C14_accessor_failure { sampleEnv with fault := fun _ => some (lit "db down") } emptyWorld
      (lit "db down")).2.2.1 _ rfl,
    (C14_accessor_failure { sampleEnv with fault := fun _ => some (lit "db down") } emptyWorld
      (lit "db down")).2.2.2 _ rfl⟩

/-- C16: for every world, function name and argument list, and any two
credentials on which `getCreator` returns a result, `Invoke` returns the same
response and the same world whichever of the two credentials the request
carries. -/
theorem C16_identity_not_used (E : Env) (w : World) (fn : GoString) (args : List GoString)
    (c1 c2 : Bytes) (id1 id2 : GoString × GoString)
    (h1 : getCreator E c1 = .ok id1) (h2 : getCreator E c2 = .ok id2) :
    Invoke E ⟨.ok c1, fn, args⟩ w = Invoke E ⟨.ok c2, fn, args⟩ w := by
  simp only [Invoke, h1, h2]

/-- Witness of C16: two credentials from which different callers are
extracted, with an `add` request. -/
theorem C16_witness :
    getCreator echoEnv sampleCredential = .ok (lit "-----BEGIN CERTI", lit "Org2") ∧
    getCreator echoEnv (lit "-----BEGIN X-----") = .ok (lit "-----BEGIN X----", lit "Org2") ∧
    Invoke echoEnv
      ⟨.ok sampleCredential, lit "add", [lit "p1", lit "d", lit "s", lit "o"]⟩ emptyWorld =
    Invoke echoEnv
      ⟨.ok (lit "-----BEGIN X-----"), lit "add", [lit "p1", lit "d", lit "s", lit "o"]⟩
      emptyWorld :=
  ⟨by decide, by decide,
    C16_identity_not_used echoEnv emptyWorld (lit "add") [lit "p1", lit "d", lit "s", lit "o"]
      sampleCredential (lit "-----BEGIN X-----")
      (lit "-----BEGIN CERTI", lit "Org2") (lit "-----BEGIN X----", lit "Org2")
      (by decide) (by decide)⟩

/-- C19: the accessor calls of one run, read off the trace. `add` makes no
call, or one read of its name, or that read followed by one write under the
name, the write only when the read succeeded and found no value; `query` makes
no call or one read; `delete` makes no call or one removal; and none of them
makes a call when the argument validation fails. -/
theorem C19_accessor_calls (E : Env) (w : World) (args : List GoString) :
    ((add E args w).2.calls = w.calls ∨
      (∃ a0, args.head? = some a0 ∧ (add E args w).2.calls = w.calls ++ [Call.get a0]) ∨
      (∃ a0 v, args.head? = some a0 ∧ nextFault E w = none ∧ w.ledger a0 = none ∧
        (add E args w).2.calls = w.calls ++ [Call.get a0, Call.put a0 v])) ∧
    ((query E args w).2.calls = w.calls ∨
      ∃ name, args = [name] ∧ (query E args w).2.calls = w.calls ++ [Call.get name]) ∧
    ((delete E args w).2.calls = w.calls ∨
      ∃ name, args = [name] ∧ (delete E args w).2.calls = w.calls ++ [Call.del name]) ∧
    ((args.length ≠ 4 ∨ [] ∈ args) → (add E args w).2 = w) ∧
    (args.length ≠ 1 → (query E args w).2 = w ∧ (delete E args w).2 = w) := by
  refine ⟨?_, ?_, ?_, ?_, ?_⟩
  · rcases add_args_cases args with ⟨a0, a1, a2, a3, rfl, h0, h1, h2, h3⟩ | ⟨msg, hmsg⟩
    · cases hget : nextFault E w with
      | some m =>
        right; left
        exact ⟨a0, rfl, by rw [add_read_fault E w h0 h1 h2 h3 hget]⟩
      | none =>
        cases hv : w.ledger a0 with
        | some v =>
          right; left
          exact ⟨a0, rfl, by rw [add_existing E w h0 h1 h2 h3 hget hv]⟩
        | none =>
          right; right
          cases hput : E.fault (w.calls.length + 1) with
          | some m =>
            exact ⟨a0, _, rfl, rfl, hv, by rw [add_write_fault E w h0 h1 h2 h3 hget hv hput]⟩
          | none =>
            exact ⟨a0, _, rfl, rfl, hv, by rw [add_fresh E w h0 h1 h2 h3 hget hv hput]⟩
    · left; rw [hmsg E w]
  · match args with
    | [] => exact Or.inl rfl
    | _ :: _ :: _ => exact Or.inl rfl
    | [name] =>
      right
      refine ⟨name, rfl, ?_⟩
      cases hget : nextFault E w with
      | none => rw [query_read E w name hget]
      | some m => simp [query, GetState, hget]
  · match args with
    | [] => exact Or.inl rfl
    | _ :: _ :: _ => exact Or.inl rfl
    | [name] =>
      right
      refine ⟨name, rfl, ?_⟩
      cases hf : nextFault E w with
      | none => rw [delete_ok E w name hf]
      | some m => rw [delete_fault E w name m hf]
  · intro hbad
    rcases add_args_cases args with ⟨a0, a1, a2, a3, rfl, h0, h1, h2, h3⟩ | ⟨msg, hmsg⟩
    · rcases hbad with hlen | hmem
      · simp at hlen
      · simp at hmem
        rcases hmem with h | h | h | h
        · exact absurd h h0
        · exact absurd h h1
        · exact absurd h h2
        · exact absurd h h3
    · rw [hmsg E w]
  · intro hlen
    match args, hlen with
    | [], _ => exact ⟨rfl, rfl⟩
    | _ :: _ :: _, _ => exact ⟨rfl, rfl⟩

/-- Witness of C19: an `add` with an empty argument makes no call, and a
`query` without arguments makes none. -/
theorem C19_witness :
    (add sampleEnv [lit "p1", [], lit "s", lit "o"] emptyWorld).2 = emptyWorld ∧
    (query sampleEnv [] emptyWorld).2 = emptyWorld ∧
    (delete sampleEnv [] emptyWorld).2 = emptyWorld :=
  ⟨(C19_accessor_calls sampleEnv emptyWorld [lit "p1", [], lit "s", lit "o"]).2.2.2.1
      (Or.inr (by decide)),
    ((C19_accessor_calls sampleEnv emptyWorld []).2.2.2.2 (by decide)).1,
    ((C19_accessor_calls sampleEnv emptyWorld []).2.2.2.2 (by decide)).2⟩

/-- C20: a key other than the first argument of `add` holds after `add` what it
held before; a key other than the single argument of `delete` holds after
`delete` what it held before; and a key other than the first and the third
argument of `Init` holds after `Init` what it held before: whatever the
arguments and whether the operation succeeds or fails. -/
theorem C20_frame (E : Env) (w : World) (args : List GoString) (k : GoString) :
    (args.head? ≠ some k → (add E args w).2.ledger k = w.ledger k) ∧
    (args ≠ [k] → (delete E args w).2.ledger k = w.ledger k) ∧
    (∀ (c : Except GoString Bytes) (f : GoString), args[0]? ≠ some k → args[2]? ≠ some k →
      (Init E ⟨c, f, args⟩ w).2.ledger k = w.ledger k) := by
  refine ⟨?_, ?_, ?_⟩
  · intro hk
    rcases add_ledger E w args with h | ⟨a0, a1, a2, a3, rfl, _, _, h⟩
    · rw [h]
    · rw [h]
      have : k ≠ a0 := fun e => hk (by simp [e])
      simp [this]
  · intro hk
    rcases delete_ledger E w args with h | ⟨name, rfl, h⟩
    · rw [h]
    · rw [h]
      have : k ≠ name := fun e => hk (by simp [e])
      simp [this]
  · intro c f h0 h2
    match args, h0, h2 with
    | [], _, _ => rfl
    | [_], _, _ => rfl
    | [_, _], _, _ => rfl
    | [_, _, _], _, _ => rfl
    | _ :: _ :: _ :: _ :: _ :: _, _, _ => rfl
    | [a0, a1, a2, a3], h0, h2 =>
      have hk0 : k ≠ a0 := fun e => h0 (by simp [e])
      have hk2 : k ≠ a2 := fun e => h2 (by simp [e])
      simp only [Init]
      cases Atoi a1 with
      | none => rfl
      | some aVal =>
        cases Atoi a3 with
        | none => rfl
        | some bVal =>
          simp only
          have e1 := PutState_frame E a0 k (Itoa aVal) w hk0
          cases hp1 : PutState E a0 (Itoa aVal) w with
          | mk r1 w1 =>
            rw [hp1] at e1
            cases r1 with
            | some err => exact e1
            | none =>
              simp only
              have e2 := PutState_frame E a2 k (Itoa bVal) w1 hk2
              cases hp2 : PutState E a2 (Itoa bVal) w1 with
              | mk r2 w2 =>
                rw [hp2] at e2
                cases r2 with
                | some err => exact e2.trans e1
                | none => exact e2.trans e1

/-- Witness of C20: the key `B` keeps its value through an `add`, a `delete`
and an `Init` that are given other keys. -/
theorem C20_witness :
    (add sampleEnv [lit "p1", lit "d", lit "s", lit "o"]
      ⟨fun k => if k = lit "B" then some (lit "7") else none, [], 0⟩).2.ledger (lit "B") =
      some (lit "7") ∧
    (delete sampleEnv [lit "A"]
      ⟨fun k => if k = lit "B" then some (lit "7") else none, [], 0⟩).2.ledger (lit "B") =
      some (lit "7") ∧
    (Init sampleEnv ⟨.ok [], lit "init", [lit "A", lit "1", lit "C", lit "2"]⟩
      ⟨fun k => if k = lit "B" then some (lit "7") else none, [], 0⟩).2.ledger (lit "B") =
      some (lit "7") :=
  ⟨(C20_frame sampleEnv ⟨fun k => if k = lit "B" then some (lit "7") else none, [], 0⟩
      [lit "p1", lit "d", lit "s", lit "o"] (lit "B")).1 (by decide),
    (C20_frame sampleEnv ⟨fun k => if k = lit "B" then some (lit "7") else none, [], 0⟩
      [lit "A"] (lit "B")).2.1 (by decide),
    (C20_frame sampleEnv ⟨fun k => if k = lit "B" then some (lit "7") else none, [], 0⟩
      [lit "A", lit "1", lit "C", lit "2"] (lit "B")).2.2 (.ok []) (lit "init")
      (by decide) (by decide)⟩

/-- C15: whenever the PEM block and the certificate are found, `getCreator`
returns the subject's common name unchanged together with the bytes of the
first issuer organization `s` that precede its first `'.'`: the result holds no
`'.'`, it is `s` itself when `s` holds no `'.'`, it is a beginning of `s`, and
`s` is the result or the result followed by `'.'` and a remainder. -/
theorem C15_organization_short (E : Env) (certificate data : Bytes) (block : PemBlock)
    (cert : Certificate) (s : GoString) (others : List GoString)
    (hslice : sliceBytes certificate (stringsIndex certificate marker)
      (stringsLastIndex certificate marker + 5) = .ok data)
    (hpem : E.pemDecode data = some block)
    (hcert : E.parseCertificate block.Bytes = some cert)
    (horg : cert.IssuerOrganization = s :: others) :
    ∃ short, getCreator E certificate = .ok (cert.SubjectCommonName, short) ∧
      short = s.takeWhile (fun b => b != 0x2E) ∧
      0x2E ∉ short ∧ (0x2E ∉ s → short = s) ∧ (∃ tail, s = short ++ tail) ∧
      (s = short ∨ ∃ remainder, s = short ++ 0x2E :: remainder) := by
  obtain ⟨pieces, hsplit⟩ := stringsSplit_single_head 0x2E s
  have hdot : lit "." = [0x2E] := by decide
  refine ⟨s.takeWhile (fun b => b != 0x2E), ?_, rfl, ?_, ?_, ?_, ?_⟩
  · simp [getCreator, hslice, hpem, hcert, horg, hdot, hsplit]
  · intro hmem
    have := List.mem_takeWhile_imp hmem
    simp at this
  · intro hno
    apply List.takeWhile_eq_self_iff.mpr
    intro b hb
    simp only [bne_iff_ne, ne_eq]
    exact fun e => hno (e ▸ hb)
  · exact ⟨s.dropWhile (fun b => b != 0x2E), (List.takeWhile_append_dropWhile _ s).symm⟩
  · cases hdrop : s.dropWhile (fun b => b != 0x2E) with
    | nil =>
      left
      have := List.takeWhile_append_dropWhile (fun b => b != 0x2E) s
      rw [hdrop, List.append_nil] at this
      exact this.symm
    | cons c remainder =>
      right
      have hc : c = 0x2E := by
        have := List.head_dropWhile_not (fun b => b != 0x2E) s (by rw [hdrop]; simp)
        simp only [hdrop, List.head_cons] at this
        simpa using this
      subst hc
      refine ⟨remainder, ?_⟩
      rw [← hdrop]
      exact (List.takeWhile_append_dropWhile _ s).symm

set_option maxRecDepth 100000 in
/-- Witness of C15: the credential of `Admin@org1`, issued by
`Org1.example.com`, gives `("Admin@org1", "Org1")`. -/
theorem C15_witness :
    getCreator sampleEnv sampleCredential = .ok (lit "Admin@org1", lit "Org1") ∧
    (lit "Org1.example.com").takeWhile (fun b => b != 0x2E) = lit "Org1" :=
  (C15_organization_short sampleEnv sampleCredential
    (lit "-----BEGIN CERTIFICATE-----\nMIIB\n-----END CERTIFICATE-----")
    ⟨lit "-----BEGIN CERTIFICATE-----\nMIIB\n-----END CERTIFICATE-----"⟩
    ⟨[lit "Org1.example.com"], lit "Admin@org1"⟩ (lit "Org1.example.com") []
    (by decide) (by decide) (by decide) rfl).elim fun short h =>
      ⟨by rw [h.1, h.2.1]; decide, by decide⟩

/-- C17, as amended: a record written by a successful `add` whose two readings
of the clock do not step back has dateCreated ≤ dateUpdated; and in every
ledger reached from an empty one by runs of `add`, `delete` and `query` under
such clocks, every value held is the `json.Marshal` of a product stored under
its name with dateCreated ≤ dateUpdated. -/
theorem C17_dates_ordered (J : Product → Bytes) :
    (∀ (E : Env) (w : World) (args : List GoString),
      (add E args w).1 = shim.Success [] → E.now w.ticks ≤ E.now (w.ticks + 1) →
      ∃ p : Product, args = [p.Name, p.Desc, p.State, p.Org] ∧
        (add E args w).2.ledger p.Name = some (E.jsonMarshal p) ∧
        p.DateCreated ≤ p.DateUpdated) ∧
    (∀ w : World, Reachable J w → ∀ k v, w.ledger k = some v →
      ∃ p : Product, v = J p ∧ p.Name = k ∧ p.DateCreated ≤ p.DateUpdated) := by
  constructor
  · intro E w args hok hclock
    obtain ⟨a0, a1, a2, a3, rfl, h0, h1, h2, h3, hget, hv, hput⟩ := add_success_inv E w args hok
    refine ⟨newProduct E w a0 a1 a2 a3, rfl, ?_, hclock⟩
    rw [add_fresh E w h0 h1 h2 h3 hget hv hput]
    simp [newProduct]
  · intro w hreach
    induction hreach with
    | empty w hw => intro k v hk; rw [hw k] at hk; cases hk
    | same w w' _ hw ih => intro k v hk; rw [hw] at hk; exact ih k v hk
    | add E args w _ hJ hclock ih =>
      intro k v hk
      rcases add_ledger E w args with h | ⟨a0, a1, a2, a3, _, _, _, h⟩
      · rw [h] at hk; exact ih k v hk
      · rw [h] at hk
        by_cases hka : k = a0
        · simp only [hka, if_true, Option.some.injEq] at hk
          exact ⟨newProduct E w a0 a1 a2 a3, by rw [← hk, hJ], hka.symm, hclock⟩
        · simp only [hka, if_false] at hk
          exact ih k v hk
    | delete E args w _ ih =>
      intro k v hk
      rcases delete_ledger E w args with h | ⟨name, _, h⟩
      · rw [h] at hk; exact ih k v hk
      · rw [h] at hk
        by_cases hkn : k = name
        · simp [hkn] at hk
        · simp only [hkn, if_false] at hk
          exact ih k v hk
    | query E args w _ ih =>
      intro k v hk
      rw [query_ledger] at hk
      exact ih k v hk

set_option maxRecDepth 100000 in
/-- Witness of C17: the ledger after an `add` and a `query` under the example
clock, which advances. -/
theorem C17_witness :
    ∃ p : Product,
      (query sampleEnv [lit "p1"]
        (add sampleEnv [lit "p1", lit "d", lit "s", lit "o"] emptyWorld).2).2.ledger (lit "p1") =
        some (goJsonMarshal p) ∧
      p.Name = lit "p1" ∧ p.DateCreated ≤ p.DateUpdated :=
  ((C17_dates_ordered goJsonMarshal).2 _
    (Reachable.query sampleEnv [lit "p1"] _
      (Reachable.add sampleEnv [lit "p1", lit "d", lit "s", lit "o"] emptyWorld
        (Reachable.empty emptyWorld (fun _ => rfl)) rfl (by decide)))
    (lit "p1") _ rfl).elim fun p hp => ⟨p, by rw [← hp.1]; rfl, hp.2.1, hp.2.2⟩

set_option maxRecDepth 100000 in
/-- Counterexample to C17 as stated: the wall clock steps back by one
nanosecond between the two readings; `add` succeeds on the empty ledger and the
record it writes under `p1` has its dateCreated after its dateUpdated. -/
theorem C17_counterexample :
    (add { sampleEnv with now := fun n => 1509800000000000001 - (n : Int) }
      [lit "p1", lit "d", lit "s", lit "o"] emptyWorld).1 = shim.Success [] ∧
    (((add { sampleEnv with now := fun n => 1509800000000000001 - (n : Int) }
      [lit "p1", lit "d", lit "s", lit "o"] emptyWorld).2.ledger
      (lit "p1")).bind goJsonUnmarshal).map (fun p => (p.DateCreated, p.DateUpdated)) =
        some (1509800000000000001, 1509800000000000000) ∧
    (((add { sampleEnv with now := fun n => 1509800000000000001 - (n : Int) }
      [lit "p1", lit "d", lit "s", lit "o"] emptyWorld).2.ledger
      (lit "p1")).bind goJsonUnmarshal).map
        (fun p => decide (p.DateCreated ≤ p.DateUpdated)) = some false := by
  decide

/-- C18: for a credential in which the marker occurs, `strings.Index` is the
first and `strings.LastIndex` the last position at which it occurs, the bounds
`first` and `last + 5` of the slice are valid (`first ≤ last + 5 ≤ length`), and
the span sliced out has `last + 5 - first` bytes, begins with the marker, ends
with the marker and covers every occurrence; it is the marker itself when the
marker occurs once only. For a credential without the marker the bounds are
`-1` and `4`, and the slice expression panics. -/
theorem C18_span_bounds (s : Bytes) :
    ((∃ p, occursAt marker s p) →
      ∃ first last : Nat,
        stringsIndex s marker = (first : Int) ∧ stringsLastIndex s marker = (last : Int) ∧
        occursAt marker s first ∧ occursAt marker s last ∧
        (∀ p, occursAt marker s p → first ≤ p ∧ p + 5 ≤ last + 5) ∧
        first ≤ last + 5 ∧ last + 5 ≤ s.length ∧
        sliceBytes s (stringsIndex s marker) (stringsLastIndex s marker + 5) =
          .ok ((s.drop first).take (last + 5 - first)) ∧
        ((s.drop first).take (last + 5 - first)).length = last + 5 - first ∧
        ((s.drop first).take (last + 5 - first)).take 5 = marker ∧
        ((s.drop first).take (last + 5 - first)).drop (last - first) = marker ∧
        ((∀ p q, occursAt marker s p → occursAt marker s q → p = q) →
          (s.drop first).take (last + 5 - first) = marker)) ∧
    ((∀ p, ¬ occursAt marker s p) →
      stringsIndex s marker = -1 ∧ stringsLastIndex s marker + 5 = 4 ∧
      sliceBytes s (stringsIndex s marker) (stringsLastIndex s marker + 5) =
        .error Panic.sliceBounds) := by
  have hm : marker ≠ [] := by decide
  constructor
  · rintro ⟨p, hp⟩
    rcases indexFrom_spec marker hm s 0 with ⟨first, hfirst, hoccf, hmin⟩ | ⟨_, hno⟩
    swap
    · exact absurd hp (hno p)
    rcases lastIndexFrom_spec marker hm s 0 none with ⟨last, hlast, hoccl, hmax⟩ | ⟨_, hno⟩
    swap
    · exact absurd hp (hno p)
    rw [Nat.zero_add] at hfirst hlast
    have hfl : first ≤ last := hmin last hoccl
    have hlen : last + 5 ≤ s.length := by
      have := occursAt_length hm hoccl
      rwa [marker_length] at this
    have hI : stringsIndex s marker = (first : Int) := by simp [stringsIndex, hfirst]
    have hL : stringsLastIndex s marker = (last : Int) := by simp [stringsLastIndex, hlast]
    have htake : ∀ k, occursAt marker s k → (s.drop k).take 5 = marker := by
      intro k hk
      obtain ⟨t, ht⟩ := List.isPrefixOf_iff_prefix.mp hk
      rw [← ht, ← marker_length, List.take_left']
      rfl
    have hbegin : ((s.drop first).take (last + 5 - first)).take 5 = marker := by
      rw [List.take_take, Nat.min_eq_left (by omega)]
      exact htake first hoccf
    have hend : ((s.drop first).take (last + 5 - first)).drop (last - first) = marker := by
      rw [List.drop_take, List.drop_drop]
      have e1 : first + (last - first) = last := by omega
      have e2 : last + 5 - first - (last - first) = 5 := by omega
      rw [e2]
      have := htake last hoccl
      simpa [e1, Nat.add_comm] using this
    refine ⟨first, last, hI, hL, hoccf, hoccl, fun q hq => ⟨hmin q hq, by have := hmax q hq; omega⟩,
      by omega, hlen, ?_, ?_, hbegin, hend, ?_⟩
    · rw [hI, hL]
      have h1 : (0 : Int) ≤ (first : Int) := Int.ofNat_nonneg _
      have h2 : (first : Int) ≤ (last : Int) + 5 := by omega
      have h3 : (last : Int) + 5 ≤ (s.length : Int) := by omega
      have e : ((last : Int) + 5).toNat = last + 5 := by omega
      simp [sliceBytes, h1, h2, h3, e]
    · rw [List.length_take, List.length_drop]
      omega
    · intro huniq
      have : first = last := huniq first last hoccf hoccl
      subst this
      have e : first + 5 - first = 5 := by omega
      rw [e]
      exact htake first hoccf
  · intro hno
    rcases indexFrom_spec marker hm s 0 with ⟨first, _, hoccf, _⟩ | ⟨hnone, _⟩
    · exact absurd hoccf (hno first)
    rcases lastIndexFrom_spec marker hm s 0 none with ⟨last, _, hoccl, _⟩ | ⟨hacc, _⟩
    · exact absurd hoccl (hno last)
    have hI : stringsIndex s marker = -1 := by simp [stringsIndex, hnone]
    have hL : stringsLastIndex s marker = -1 := by simp [stringsLastIndex, hacc]
    refine ⟨hI, by rw [hL]; rfl, ?_⟩
    rw [hI, hL]
    simp [sliceBytes]

/-- Witness of C18: a credential with two markers, and the empty credential. -/
theorem C18_witness :
    sliceBytes (lit "ab-----BEGIN-----cd") (stringsIndex (lit "ab-----BEGIN-----cd") marker)
      (stringsLastIndex (lit "ab-----BEGIN-----cd") marker + 5) = .ok (lit "-----BEGIN-----") ∧
    sliceBytes [] (stringsIndex [] marker) (stringsLastIndex [] marker + 5) =
      .error Panic.sliceBounds := by
  constructor
  · obtain ⟨first, last, hI, hL, _, _, _, _, _, hs, _⟩ :=
      (C18_span_bounds (lit "ab-----BEGIN-----cd")).1 ⟨2, by unfold occursAt; decide⟩
    have h1 : stringsIndex (lit "ab-----BEGIN-----cd") marker = 2 := by decide
    have h2 : stringsLastIndex (lit "ab-----BEGIN-----cd") marker = 12 := by decide
    have e1 : first = 2 := by omega
    have e2 : last = 12 := by omega
    subst e1 e2
    rw [hs]
    decide
  · exact ((C18_span_bounds []).2 (fun p h => by
      have := occursAt_length (by decide) h
      rw [marker_length] at this
      simp at this)).2.2

end Chaincode
